import Mathlib

/-!
# Verification of the NanoEX matching pipeline

A shallow embedding, in Lean 4, of the core of the `AbhigyanD/HFT_System`
repository: the order book (`src/order_book.cpp`), the matching engine
(`src/matching_engine.cpp`), the risk filter (`src/risk.cpp`), the
performance monitor (`src/performance.cpp`), the technical indicators
(`src/indicators.cpp`) and the momentum strategy (`src/strategy.cpp`).

Modelling conventions:
* `Price`, `Quantity`, `OrderId` are C++ `uint64_t`; they are embedded as
  `Nat`, with an explicit `% 2 ^ 64` exactly where the C++ computation can
  wrap (the risk filter's notional product and daily-volume sum).  The
  book-keeping subtractions (`total_quantity_ -= ...`,
  `quantity -= trade_quantity`) never underflow on the states the theorems
  quantify over, so truncated `Nat` subtraction agrees with the machine.
* `std::map<Price, OrderBookLevel>` iterated from `begin()` (asks) or
  `rbegin()` (bids) is embedded as a list of levels kept sorted
  best-price-first, so the best level is the head for both sides.
* `double` arithmetic in the strategy and indicators is embedded as exact
  `ℚ` arithmetic; `std::tanh`, the one transcendental, is abstracted as an
  explicit function argument `tanhQ` (every theorem below holds for every
  choice of `tanhQ`).  Numeric-to-string formatting is abstracted by
  Lean's `toString` on `ℚ`; the claims only inspect the fixed prefix of a
  reason string, never the rendered number.
* The matching loop of `match_order_against_side` is embedded with
  explicit fuel; the wrapper passes fuel strictly larger than the loop
  variant (resting-order count + incoming quantity), which provably
  suffices.
-/

namespace HFT

/-- `enum class OrderSide : uint8_t { BUY = 0, SELL = 1 }`. -/
inductive OrderSide where
  | BUY
  | SELL
deriving DecidableEq, Repr

/-- `enum class OrderType : uint8_t { LIMIT = 0, MARKET = 1 }`. -/
inductive OrderType where
  | LIMIT
  | MARKET
deriving DecidableEq, Repr

/-- `struct Order` (timestamp omitted; it never influences control flow).
`quantity` is the mutable remaining quantity, decremented on fills. -/
structure Order where
  order_id : Nat
  side : OrderSide
  price : Nat
  quantity : Nat
  otype : OrderType
deriving DecidableEq, Repr

/-- `struct TradeEvent` (timestamp omitted). -/
structure TradeEvent where
  buy_order_id : Nat
  sell_order_id : Nat
  price : Nat
  quantity : Nat
deriving DecidableEq, Repr

/-- `class OrderBookLevel`: FIFO queue of orders at one price plus the
cached `total_quantity_`.  The head of `orders` is the front of the
queue. -/
structure OrderBookLevel where
  price : Nat
  orders : List Order
  total_quantity : Nat
deriving DecidableEq, Repr

namespace OrderBookLevel

/-- `OrderBookLevel::add_order`: push to the back of the queue and add the
order's quantity to the cache. -/
def add_order (l : OrderBookLevel) (o : Order) : OrderBookLevel :=
  { l with orders := l.orders ++ [o], total_quantity := l.total_quantity + o.quantity }

/-- `OrderBookLevel::get_front_order`: front of the queue, `nullptr` when
empty. -/
def get_front_order (l : OrderBookLevel) : Option Order :=
  l.orders.head?

/-- `OrderBookLevel::remove_front_order`: pop the front order and subtract
its (current, remaining) quantity from the cache. -/
def remove_front_order (l : OrderBookLevel) : OrderBookLevel :=
  match l.orders with
  | [] => l
  | o :: rest => { l with orders := rest, total_quantity := l.total_quantity - o.quantity }

/-- `OrderBookLevel::remove_order`: drain the queue, dropping every order
whose id matches (subtracting each dropped order's quantity from the
cache) and keeping the rest in order; report whether anything matched. -/
def remove_order (l : OrderBookLevel) (id : Nat) : OrderBookLevel × Bool :=
  let kept := l.orders.filter (fun o => o.order_id ≠ id)
  let removedQty := (l.orders.filter (fun o => o.order_id = id)).foldl
    (fun a o => a + o.quantity) 0
  ({ l with orders := kept, total_quantity := l.total_quantity - removedQty },
    l.orders.any (fun o => o.order_id = id))

/-- Sum of the remaining quantities of the orders currently in a level:
the value the spec says the cache equals. -/
def sumRemaining (l : OrderBookLevel) : Nat :=
  (l.orders.map Order.quantity).sum

end OrderBookLevel

/-- Strict "is strictly better priced" comparison for the side's sorted
level list: bids iterate highest price first (`rbegin`), asks lowest
first (`begin`). -/
def priceBetter (is_bid : Bool) (p q : Nat) : Prop :=
  if is_bid then q < p else p < q

instance (is_bid : Bool) (p q : Nat) : Decidable (priceBetter is_bid p q) :=
  inferInstanceAs (Decidable (if is_bid then q < p else p < q))

/-- Insert an order into the best-first sorted level list, creating its
level if missing (`OrderBookSide::add_order` body over the `std::map`). -/
def insertLevel (is_bid : Bool) (o : Order) : List OrderBookLevel → List OrderBookLevel
  | [] => [OrderBookLevel.add_order { price := o.price, orders := [], total_quantity := 0 } o]
  | l :: ls =>
    if o.price = l.price then OrderBookLevel.add_order l o :: ls
    else if priceBetter is_bid o.price l.price then
      OrderBookLevel.add_order { price := o.price, orders := [], total_quantity := 0 } o :: l :: ls
    else l :: insertLevel is_bid o ls

/-- `class OrderBookSide`: the map of levels, best level first. -/
structure OrderBookSide where
  is_bid_side : Bool
  levels : List OrderBookLevel
deriving DecidableEq, Repr

namespace OrderBookSide

/-- `OrderBookSide::add_order`. -/
def add_order (s : OrderBookSide) (o : Order) : OrderBookSide :=
  { s with levels := insertLevel s.is_bid_side o s.levels }

/-- `OrderBookSide::get_best_order`: front order of the best level,
`nullptr` when the side is empty. -/
def get_best_order (s : OrderBookSide) : Option Order :=
  match s.levels with
  | [] => none
  | l :: _ => l.get_front_order

/-- `OrderBookSide::remove_best_order`: pop the front order of the best
level, erasing the level if it becomes empty. -/
def remove_best_order (s : OrderBookSide) : OrderBookSide :=
  match s.levels with
  | [] => s
  | l :: ls =>
    let l' := l.remove_front_order
    if l'.orders.isEmpty then { s with levels := ls } else { s with levels := l' :: ls }

/-- Remove order `id` from the level at `price` inside the sorted level
list; erase the level if the removal empties it (`OrderBookSide::remove_order`). -/
def removeOrderAtPrice (id price : Nat) : List OrderBookLevel → List OrderBookLevel × Bool
  | [] => ([], false)
  | l :: ls =>
    if l.price = price then
      let (l', found) := l.remove_order id
      if found ∧ l'.orders.isEmpty then (ls, found) else (l' :: ls, found)
    else
      let (ls', found) := removeOrderAtPrice id price ls
      (l :: ls', found)

/-- `OrderBookSide::remove_order`. -/
def remove_order (s : OrderBookSide) (id price : Nat) : OrderBookSide × Bool :=
  let (ls', found) := removeOrderAtPrice id price s.levels
  ({ s with levels := ls' }, found)

/-- `OrderBookSide::get_best_price`, with the documented `0` sentinel. -/
def get_best_price (s : OrderBookSide) : Nat :=
  match s.levels with
  | [] => 0
  | l :: _ => l.price

/-- `OrderBookSide::is_empty`. -/
def is_empty (s : OrderBookSide) : Bool :=
  s.levels.isEmpty

end OrderBookSide

/-- Order index entries: `order_id → (price, side)` as stored in the
engine's `std::unordered_map` (`order_lookup_`). -/
abbrev LookupEntry := Nat × Nat × OrderSide

/-- `order_lookup_.find(id)`. -/
def lookupFind (l : List LookupEntry) (id : Nat) : Option (Nat × OrderSide) :=
  (l.find? (fun e => e.1 = id)).map (·.2)

/-- `order_lookup_.erase(id)`. -/
def lookupErase (l : List LookupEntry) (id : Nat) : List LookupEntry :=
  l.filter (fun e => e.1 ≠ id)

/-- `order_lookup_[id] = {price, side}` (assignment overwrites). -/
def lookupInsert (l : List LookupEntry) (id price : Nat) (side : OrderSide) :
    List LookupEntry :=
  (id, price, side) :: lookupErase l id

/-- Number of resting orders in a level list (the matching loop's
termination measure, together with the incoming quantity). -/
def sideOrderCount (ls : List OrderBookLevel) : Nat :=
  (ls.map (fun l => l.orders.length)).sum

/-- Result of one `match_order_against_side` call: the incoming order with
its remaining quantity, the mutated opposite-side levels, the order
index after full-fill erasures, and the trade log. -/
structure MatchResult where
  incoming : Order
  levels : List OrderBookLevel
  lookup : List LookupEntry
  trades : List TradeEvent
deriving DecidableEq, Repr

/-- The `can_match` condition of `match_order_against_side`: a Market
order always crosses; a Limit Buy crosses iff
`incoming.price ≥ resting.price`; a Limit Sell iff
`incoming.price ≤ resting.price`. -/
def crosses (inc : Order) (resting_price : Nat) : Prop :=
  inc.otype = OrderType.MARKET ∨
    (if inc.side = OrderSide.BUY then resting_price ≤ inc.price
     else inc.price ≤ resting_price)

instance (inc : Order) (p : Nat) : Decidable (crosses inc p) :=
  inferInstanceAs (Decidable (inc.otype = OrderType.MARKET ∨
    (if inc.side = OrderSide.BUY then p ≤ inc.price else inc.price ≤ p)))

/-- The body of `MatchingEngine::match_order_against_side`, with explicit
fuel.  Each iteration: read the front order of the best level; check the
crossing condition; emit a trade at the resting price for `min` of the two
remaining quantities; decrement both remainders (the resting order in
place, through its shared pointer); if the resting order reaches zero,
`remove_best_order` (which subtracts the now-zero front quantity from the
level cache) and erase its id from the order index. -/
def matchGo (fuel : Nat) (inc : Order) (ls : List OrderBookLevel)
    (lookup : List LookupEntry) (trades : List TradeEvent) : MatchResult :=
  match fuel with
  | 0 => ⟨inc, ls, lookup, trades⟩
  | fuel + 1 =>
    match ls with
    | [] => ⟨inc, ls, lookup, trades⟩
    | l :: rest =>
      if 0 < inc.quantity then
        match l.orders with
        | [] => ⟨inc, l :: rest, lookup, trades⟩
        | resting :: lrest =>
          if crosses inc resting.price then
            let trade_quantity := min inc.quantity resting.quantity
            let buy_id := if inc.side = OrderSide.BUY then inc.order_id else resting.order_id
            let sell_id := if inc.side = OrderSide.SELL then inc.order_id else resting.order_id
            let trades' := trades ++ [⟨buy_id, sell_id, resting.price, trade_quantity⟩]
            let inc' : Order := { inc with quantity := inc.quantity - trade_quantity }
            let resting' : Order := { resting with quantity := resting.quantity - trade_quantity }
            if resting'.quantity = 0 then
              let l' : OrderBookLevel :=
                { l with orders := lrest, total_quantity := l.total_quantity - resting'.quantity }
              let ls' := if l'.orders.isEmpty then rest else l' :: rest
              matchGo fuel inc' ls' (lookupErase lookup resting.order_id) trades'
            else
              matchGo fuel inc' ({ l with orders := resting' :: lrest } :: rest) lookup trades'
          else ⟨inc, l :: rest, lookup, trades⟩
      else ⟨inc, l :: rest, lookup, trades⟩

/-- `MatchingEngine::match_order_against_side`: run the loop with fuel
strictly above its variant, which suffices (see `matchGo_fuel_irrel`). -/
def match_order_against_side (inc : Order) (ls : List OrderBookLevel)
    (lookup : List LookupEntry) (trades : List TradeEvent) : MatchResult :=
  matchGo (sideOrderCount ls + inc.quantity + 1) inc ls lookup trades

/-- `class MatchingEngine` state: the two sides, the order index and the
trade log (counters and the mutex are omitted; no claim mentions them). -/
structure MatchingEngine where
  bid_side : OrderBookSide
  ask_side : OrderBookSide
  order_lookup : List LookupEntry
  trade_events : List TradeEvent
deriving DecidableEq, Repr

/-- `MatchingEngine::MatchingEngine()`: empty book. -/
def MatchingEngine.empty : MatchingEngine :=
  ⟨⟨true, []⟩, ⟨false, []⟩, [], []⟩

/-- `MatchingEngine::process_limit_order`: match against the opposite
side; if any quantity remains, rest the order on its own side and record
it in the order index. -/
def process_limit_order (e : MatchingEngine) (o : Order) : MatchingEngine :=
  if o.side = OrderSide.BUY then
    let r := match_order_against_side o e.ask_side.levels e.order_lookup e.trade_events
    if 0 < r.incoming.quantity then
      { e with
        ask_side := { e.ask_side with levels := r.levels }
        bid_side := e.bid_side.add_order r.incoming
        order_lookup := lookupInsert r.lookup r.incoming.order_id r.incoming.price r.incoming.side
        trade_events := r.trades }
    else
      { e with
        ask_side := { e.ask_side with levels := r.levels }
        order_lookup := r.lookup
        trade_events := r.trades }
  else
    let r := match_order_against_side o e.bid_side.levels e.order_lookup e.trade_events
    if 0 < r.incoming.quantity then
      { e with
        bid_side := { e.bid_side with levels := r.levels }
        ask_side := e.ask_side.add_order r.incoming
        order_lookup := lookupInsert r.lookup r.incoming.order_id r.incoming.price r.incoming.side
        trade_events := r.trades }
    else
      { e with
        bid_side := { e.bid_side with levels := r.levels }
        order_lookup := r.lookup
        trade_events := r.trades }

/-- `MatchingEngine::process_market_order`: match against the opposite
side only; the remainder is dropped. -/
def process_market_order (e : MatchingEngine) (o : Order) : MatchingEngine :=
  if o.side = OrderSide.BUY then
    let r := match_order_against_side o e.ask_side.levels e.order_lookup e.trade_events
    { e with
      ask_side := { e.ask_side with levels := r.levels }
      order_lookup := r.lookup
      trade_events := r.trades }
  else
    let r := match_order_against_side o e.bid_side.levels e.order_lookup e.trade_events
    { e with
      bid_side := { e.bid_side with levels := r.levels }
      order_lookup := r.lookup
      trade_events := r.trades }

/-- `MatchingEngine::add_order` (the `submit` entry point, minus timing
counters). -/
def MatchingEngine.add_order (e : MatchingEngine) (o : Order) : MatchingEngine :=
  if o.otype = OrderType.MARKET then process_market_order e o else process_limit_order e o

/-- `MatchingEngine::cancel_order`. -/
def MatchingEngine.cancel_order (e : MatchingEngine) (id : Nat) : MatchingEngine × Bool :=
  match lookupFind e.order_lookup id with
  | none => (e, false)
  | some (price, side) =>
    if side = OrderSide.BUY then
      let (s', removed) := e.bid_side.remove_order id price
      if removed then
        ({ e with bid_side := s', order_lookup := lookupErase e.order_lookup id }, true)
      else ({ e with bid_side := s' }, false)
    else
      let (s', removed) := e.ask_side.remove_order id price
      if removed then
        ({ e with ask_side := s', order_lookup := lookupErase e.order_lookup id }, true)
      else ({ e with ask_side := s' }, false)

/-! ## Risk filter (`src/risk.cpp`) -/

/-- The `uint64_t` modulus: products and sums in the risk filter are
computed modulo `2 ^ 64`. -/
def u64Mod : Nat := 2 ^ 64

/-- `struct RiskConfig`; `0` means "no limit" for every cap
(`max_position_pct` is unused by `filter_orders` and omitted). -/
structure RiskConfig where
  max_order_quantity : Nat
  max_notional_per_order : Nat
  max_orders_per_batch : Nat
  max_daily_volume : Nat
deriving DecidableEq, Repr

/-- `class RiskManager` mutable state. -/
structure RiskManager where
  config : RiskConfig
  orders_rejected : Nat
  daily_volume : Nat
deriving DecidableEq, Repr

/-- One iteration of the `filter_orders` loop on candidate `o`, given the
orders already admitted in this batch (`out`).  The four checks run in
source order; the notional product and the daily-volume sum are `uint64_t`
operations, hence taken modulo `2 ^ 64`. -/
def riskStep (rm : RiskManager) (out : List Order) (o : Order) : RiskManager × List Order :=
  if rm.config.max_order_quantity ≠ 0 ∧ rm.config.max_order_quantity < o.quantity then
    ({ rm with orders_rejected := rm.orders_rejected + 1 }, out)
  else if rm.config.max_notional_per_order ≠ 0 ∧
      rm.config.max_notional_per_order < o.price * o.quantity % u64Mod then
    ({ rm with orders_rejected := rm.orders_rejected + 1 }, out)
  else if rm.config.max_orders_per_batch ≠ 0 ∧ rm.config.max_orders_per_batch ≤ out.length then
    ({ rm with orders_rejected := rm.orders_rejected + 1 }, out)
  else if rm.config.max_daily_volume ≠ 0 then
    if rm.config.max_daily_volume < (rm.daily_volume + o.quantity) % u64Mod then
      ({ rm with orders_rejected := rm.orders_rejected + 1 }, out)
    else
      ({ rm with daily_volume := (rm.daily_volume + o.quantity) % u64Mod }, out ++ [o])
  else (rm, out ++ [o])

/-- `RiskManager::filter_orders`: fold `riskStep` over the candidates in
input order, returning the updated manager and the admitted orders. -/
def filter_orders (rm : RiskManager) (orders : List Order) : RiskManager × List Order :=
  orders.foldl (fun acc o => riskStep acc.1 acc.2 o) (rm, [])

/-- The rejection condition of `filter_orders`, written from the claim's
wording ("discards a candidate iff, when the respective cap is set, its
quantity exceeds `max_order_quantity`, or price × quantity exceeds
`max_notional_per_order`, or the number already admitted is at least
`max_orders_per_batch`, or `daily_volume` plus its quantity would exceed
`max_daily_volume`"), with the `uint64_t` product and sum of the source. -/
def specRejects (rm : RiskManager) (out : List Order) (o : Order) : Prop :=
  (rm.config.max_order_quantity ≠ 0 ∧ rm.config.max_order_quantity < o.quantity) ∨
  (rm.config.max_notional_per_order ≠ 0 ∧
    rm.config.max_notional_per_order < o.price * o.quantity % u64Mod) ∨
  (rm.config.max_orders_per_batch ≠ 0 ∧ rm.config.max_orders_per_batch ≤ out.length) ∨
  (rm.config.max_daily_volume ≠ 0 ∧
    rm.config.max_daily_volume < (rm.daily_volume + o.quantity) % u64Mod)

instance (rm : RiskManager) (out : List Order) (o : Order) :
    Decidable (specRejects rm out o) := by
  unfold specRejects
  infer_instance

/-! ## Performance monitor (`src/performance.cpp`) -/

/-- `duration_cast<seconds>(end - start).count()` in
`PerformanceMonitor::get_events_per_second`: second-granularity elapsed
time, truncating the nanosecond difference. -/
def eps_duration_s (elapsed_ns : Nat) : Nat :=
  elapsed_ns / 1000000000

/-- Whether `get_events_per_second` evaluates its division at all: the
source guards with `if (duration <= 0) return 0.0;`, so the division runs
exactly when the truncated duration is positive. -/
def eps_divides (elapsed_ns : Nat) : Bool :=
  !(eps_duration_s elapsed_ns ≤ 0)

/-- `PerformanceMonitor::get_events_per_second`, as a function of the
event count and the elapsed monotonic nanoseconds. -/
def get_events_per_second (event_count : Nat) (elapsed_ns : Nat) : ℚ :=
  let duration := eps_duration_s elapsed_ns
  if duration ≤ 0 then 0 else (event_count : ℚ) / (duration : ℚ)

/-! ## Technical indicators (`src/indicators.cpp`)

`double` is embedded as `ℚ`; `std::tanh` is passed in as `tanhQ`. -/

namespace Indicators

/-- `Indicators::simple_moving_average`: arithmetic mean of the last
`period` values, `0` when the window is shorter than the period. -/
def simple_moving_average (values : List ℚ) (period : Nat) : ℚ :=
  if values.length < period ∨ period = 0 then 0
  else ((values.drop (values.length - period)).sum) / (period : ℚ)

/-- `Indicators::relative_strength_index`. -/
def relative_strength_index (prices : List ℚ) (period : Nat) : ℚ :=
  if prices.length < period + 1 then 50
  else
    let changes := List.zipWith (fun a b => a - b) prices.tail prices
    let gains := changes.map (fun c => if 0 < c then c else 0)
    let losses := changes.map (fun c => if 0 < c then 0 else -c)
    if gains.length < period then 50
    else
      let avg_gain := (gains.drop (gains.length - period)).sum / (period : ℚ)
      let avg_loss := (losses.drop (losses.length - period)).sum / (period : ℚ)
      if avg_loss = 0 then 100
      else 100 - 100 / (1 + avg_gain / avg_loss)

/-- `Indicators::macd`: the source uses SMAs for both lines; the signal
line is the SMA of the historical MACD-line values. -/
def macd (prices : List ℚ) (fast_period slow_period signal_period : Nat) : ℚ × ℚ :=
  if prices.length < slow_period then (0, 0)
  else
    let macd_line := simple_moving_average prices fast_period -
      simple_moving_average prices slow_period
    let macd_values := (List.range (prices.length - slow_period)).map (fun j =>
      let temp := prices.take (slow_period + j + 1)
      simple_moving_average temp fast_period - simple_moving_average temp slow_period)
    let signal_line :=
      if signal_period ≤ macd_values.length then
        simple_moving_average macd_values signal_period
      else 0
    (macd_line, signal_line)

/-- `Indicators::price_change_percent`. -/
def price_change_percent (prices : List ℚ) (period : Nat) : ℚ :=
  if prices.length < period + 1 then 0
  else
    let current_price := prices.getLastD 0
    let past_price := prices.getD (prices.length - period - 1) 0
    if past_price = 0 then 0
    else (current_price - past_price) / past_price * 100

/-- `Indicators::momentum_score`: mean of the price-vs-short-SMA sign, the
SMA-trend sign and `tanh(price_change / 10)`. -/
def momentum_score (tanhQ : ℚ → ℚ) (prices : List ℚ) (short_period long_period : Nat) : ℚ :=
  if prices.length < long_period then 0
  else
    let short_sma := simple_moving_average prices short_period
    let long_sma := simple_moving_average prices long_period
    let current_price := prices.getLastD 0
    let price_vs_short : ℚ := if short_sma < current_price then 1 else -1
    let ma_trend : ℚ := if long_sma < short_sma then 1 else -1
    let momentum_factor := tanhQ (price_change_percent prices short_period / 10)
    (price_vs_short + ma_trend + momentum_factor) / 3

end Indicators

/-! ## Momentum strategy (`src/strategy.cpp`, `src/strategy.h`) -/

/-- `enum class SignalType`. -/
inductive SignalType where
  | BUY
  | SELL
  | HOLD
deriving DecidableEq, Repr

/-- `struct StrategyConfig`. -/
structure StrategyConfig where
  momentum_threshold : ℚ
  rsi_oversold : ℚ
  rsi_overbought : ℚ
  short_period : Nat
  long_period : Nat
  rsi_period : Nat
  position_size : ℚ
  stop_loss_pct : ℚ
  take_profit_pct : ℚ
deriving DecidableEq, Repr

/-- `struct Signal`. -/
structure Signal where
  stype : SignalType
  price : ℚ
  quantity : ℚ
  reason : String
  confidence : ℚ
deriving DecidableEq, Repr

/-- `class StrategyEngine` mutable state (the `last_signal_*` logging
fields are represented by the values `generate_signals` returns). -/
structure StrategyState where
  config : StrategyConfig
  price_history : List ℚ
  volume_history : List ℚ
  in_position : Bool
  entry_price : ℚ
deriving DecidableEq, Repr

namespace StrategyEngine

/-- `StrategyEngine::calculate_signal_confidence`: weighted combination of
normalised momentum (0.4), RSI distance from 50 (0.3) and MACD-line gap
(0.3), clamped to 1. -/
def calculate_signal_confidence (tanhQ : ℚ → ℚ) (st : StrategyState) : ℚ :=
  if st.price_history.length < st.config.long_period then 0
  else
    let m := Indicators.momentum_score tanhQ st.price_history st.config.short_period
      st.config.long_period
    let rsi := Indicators.relative_strength_index st.price_history st.config.rsi_period
    let md := Indicators.macd st.price_history 12 26 9
    let momentum_norm := |m|
    let rsi_norm := if 50 < rsi then (rsi - 50) / 50 else (50 - rsi) / 50
    let macd_norm := |md.1 - md.2| / max |md.1| 1
    min (momentum_norm * 0.4 + rsi_norm * 0.3 + macd_norm * 0.3) 1

/-- `StrategyEngine::generate_signal_reason` (numeric formatting is
abstracted by `toString` on `ℚ`; the claims only inspect fixed prefixes). -/
def generate_signal_reason (tanhQ : ℚ → ℚ) (st : StrategyState) (current_price : ℚ) : String :=
  if st.price_history.length < st.config.long_period then "Insufficient data"
  else
    let m := Indicators.momentum_score tanhQ st.price_history st.config.short_period
      st.config.long_period
    let rsi := Indicators.relative_strength_index st.price_history st.config.rsi_period
    let md := Indicators.macd st.price_history 12 26 9
    let short_ma := Indicators.simple_moving_average st.price_history st.config.short_period
    let long_ma := Indicators.simple_moving_average st.price_history st.config.long_period
    "Momentum: " ++ toString m ++ ", RSI: " ++ toString rsi ++ ", MACD: " ++
      (if md.2 < md.1 then "Bullish" else "Bearish") ++ ", Price vs MA: " ++
      (if short_ma < current_price then "Above" else "Below") ++
      " (" ++ toString short_ma ++ " vs " ++ toString long_ma ++ ")"

/-- `StrategyEngine::generate_momentum_signal`: stop-loss and take-profit
exits first (when in position), then the all-conditions BUY / any-condition
SELL momentum logic. -/
def generate_momentum_signal (tanhQ : ℚ → ℚ) (st : StrategyState)
    (current_price : ℚ) : Signal :=
  let confidence := calculate_signal_confidence tanhQ st
  let reason0 := generate_signal_reason tanhQ st current_price
  let m := Indicators.momentum_score tanhQ st.price_history st.config.short_period
    st.config.long_period
  let rsi := Indicators.relative_strength_index st.price_history st.config.rsi_period
  let md := Indicators.macd st.price_history 12 26 9
  let base : Signal :=
    { stype := SignalType.HOLD, price := current_price,
      quantity := st.config.position_size, reason := reason0, confidence := confidence }
  if st.in_position ∧
      (current_price - st.entry_price) / st.entry_price * 100 ≤ -st.config.stop_loss_pct then
    { base with
      stype := SignalType.SELL
      reason := "Stop Loss triggered (" ++
        toString ((current_price - st.entry_price) / st.entry_price * 100) ++ "%)" }
  else if st.in_position ∧
      st.config.take_profit_pct ≤ (current_price - st.entry_price) / st.entry_price * 100 then
    { base with
      stype := SignalType.SELL
      reason := "Take Profit triggered (" ++
        toString ((current_price - st.entry_price) / st.entry_price * 100) ++ "%)" }
  else if ¬st.in_position then
    if st.config.momentum_threshold < m ∧ rsi < st.config.rsi_overbought ∧ md.2 < md.1 ∧
        Indicators.simple_moving_average st.price_history st.config.short_period <
          current_price then
      { base with stype := SignalType.BUY }
    else base
  else
    if m < 0 ∨ st.config.rsi_overbought < rsi ∨ md.1 < md.2 ∨
        current_price <
          Indicators.simple_moving_average st.price_history st.config.short_period then
      { base with stype := SignalType.SELL }
    else base

/-- The history update of `generate_signals`: append `price` and
`quantity` of each Market-type input, evicting the oldest beyond 1000
points. -/
def pushHistory (st : StrategyState) (o : Order) : StrategyState :=
  if o.otype = OrderType.MARKET then
    let ph := st.price_history ++ [(o.price : ℚ)]
    let vh := st.volume_history ++ [(o.quantity : ℚ)]
    if 1000 < ph.length then
      { st with price_history := ph.tail, volume_history := vh.tail }
    else { st with price_history := ph, volume_history := vh }
  else st

/-- `StrategyEngine::generate_signals`.  `fresh_id` stands for the
nanosecond timestamp the source uses as the order id.  Returns the new
state, the produced orders, the non-HOLD signal (if any) and the realised
pnl% the SELL branch prints (if any).  The produced order's price is
`static_cast<Price>(signal.price * 100)` — the source's conversion of the
signal price to an integer price. -/
def generate_signals (tanhQ : ℚ → ℚ) (st : StrategyState) (market_orders : List Order)
    (fresh_id : Nat) : StrategyState × List Order × Option Signal × Option ℚ :=
  let st1 := market_orders.foldl pushHistory st
  if st1.price_history.length < st1.config.long_period then (st1, [], none, none)
  else
    let current_price := st1.price_history.getLastD 0
    let signal := generate_momentum_signal tanhQ st1 current_price
    if signal.stype = SignalType.HOLD then (st1, [], none, none)
    else
      let order : Order :=
        { order_id := fresh_id
          side := if signal.stype = SignalType.BUY then OrderSide.BUY else OrderSide.SELL
          price := Nat.floor (signal.price * 100)
          quantity := Nat.floor signal.quantity
          otype := OrderType.MARKET }
      if signal.stype = SignalType.BUY ∧ st1.in_position = false then
        ({ st1 with in_position := true, entry_price := signal.price }, [order], some signal,
          none)
      else if signal.stype = SignalType.SELL ∧ st1.in_position = true then
        ({ st1 with in_position := false, entry_price := 0 }, [order], some signal,
          some ((signal.price - st1.entry_price) / st1.entry_price * 100))
      else (st1, [order], some signal, none)

end StrategyEngine

/-! ## Auxiliary notions used by the theorems -/

/-- All resting orders of a level list, in price-then-time priority order
(the level list is best-first and each level's queue is front-first). -/
def ordersOf (ls : List OrderBookLevel) : List Order :=
  (ls.map OrderBookLevel.orders).flatten

/-- The resting order ids of a level list, in priority order. -/
def idsOf (ls : List OrderBookLevel) : List Nat :=
  (ordersOf ls).map Order.order_id

/-- `os'` is obtained from `os` by removing a prefix of the queue and
possibly reducing the (new) front order's remaining quantity — the only
two effects the matching loop has on a single level's queue. -/
def OrdersTrim (os os' : List Order) : Prop :=
  ∃ k, os' = os.drop k ∨
    ∃ o rest q, os.drop k = o :: rest ∧ q < o.quantity ∧
      os' = { o with quantity := q } :: rest

/-- `l'` is `l` after some matching activity: same price, same cached
total (full fills subtract the already-zero front quantity, partial fills
leave the cache untouched), trimmed queue, still nonempty. -/
def LevelTrim (l l' : OrderBookLevel) : Prop :=
  l'.price = l.price ∧ l'.total_quantity = l.total_quantity ∧
    OrdersTrim l.orders l'.orders ∧ l'.orders ≠ []

/-- `ls'` is `ls` after some matching activity: a best-first prefix of
levels fully consumed and erased, with the new best level possibly
trimmed. -/
def SideTrim (ls ls' : List OrderBookLevel) : Prop :=
  (∃ k, ls' = ls.drop k) ∨
    ∃ k l rest l', ls.drop k = l :: rest ∧ LevelTrim l l' ∧ ls' = l' :: rest

/-- Book-level operations of the spec's §4.1 (`insert`, `pop_best`,
`cancel`), acting on one `OrderBookSide`. -/
inductive BookOp where
  | insert (o : Order)
  | popBest
  | cancel (id price : Nat)

/-- Apply one book operation. -/
def applyBookOp (s : OrderBookSide) : BookOp → OrderBookSide
  | BookOp.insert o => s.add_order o
  | BookOp.popBest => s.remove_best_order
  | BookOp.cancel id price => (s.remove_order id price).1

/-- Apply a sequence of book operations. -/
def applyBookOps (s : OrderBookSide) (ops : List BookOp) : OrderBookSide :=
  ops.foldl applyBookOp s

/-- Engine-level operations (`MatchingEngine::add_order` and
`MatchingEngine::cancel_order`). -/
inductive EngineOp where
  | submit (o : Order)
  | cancel (id : Nat)

/-- Apply one engine operation. -/
def applyEngineOp (e : MatchingEngine) : EngineOp → MatchingEngine
  | EngineOp.submit o => e.add_order o
  | EngineOp.cancel id => (e.cancel_order id).1

/-- Apply a sequence of engine operations. -/
def applyEngineOps (e : MatchingEngine) (ops : List EngineOp) : MatchingEngine :=
  ops.foldl applyEngineOp e

/-- The ids of the orders submitted by a sequence of engine operations. -/
def submittedIds : List EngineOp → List Nat
  | [] => []
  | EngineOp.submit o :: ops => o.order_id :: submittedIds ops
  | EngineOp.cancel _ :: ops => submittedIds ops

/-- `p` is a prefix of `s`, at the character-list level (the claims only
inspect literal prefixes of reason strings). -/
def strHasPrefix (p s : String) : Prop :=
  ∃ t, s.data = p.data ++ t

/-- Modelled from the spec (§4.2 contract for `submit`, refinement target
for C2): match the incoming order against the priority-ordered sequence of
resting orders of the opposite side, while the front resting order crosses;
each step emits a Trade at the resting order's price for
`min(incoming.remaining, resting.remaining)` with the buy/sell ids
assigned from the sides of the two orders, decrements both remainders and
drops the resting order when it reaches zero. -/
def specLimitMatch (inc : Order) : List Order → Order × List Order × List TradeEvent
  | [] => (inc, [], [])
  | r :: rs =>
    if 0 < inc.quantity ∧ crosses inc r.price then
      let tq := min inc.quantity r.quantity
      let t : TradeEvent :=
        ⟨if inc.side = OrderSide.BUY then inc.order_id else r.order_id,
         if inc.side = OrderSide.SELL then inc.order_id else r.order_id,
         r.price, tq⟩
      let inc' : Order := { inc with quantity := inc.quantity - tq }
      let r' : Order := { r with quantity := r.quantity - tq }
      if r'.quantity = 0 then
        let (inc'', rest', ts) := specLimitMatch inc' rs
        (inc'', rest', t :: ts)
      else (inc', r' :: rs, [t])
    else (inc, r :: rs, [])

/-! ## Helper lemmas -/

theorem foldl_add_quantity (os : List Order) (init : Nat) :
    os.foldl (fun a o => a + o.quantity) init = init + (os.map Order.quantity).sum := by
  induction os generalizing init with
  | nil => simp
  | cons o os ih => simp [ih, Nat.add_assoc]

theorem sum_quantity_filter_partition (os : List Order) (id : Nat) :
    ((os.filter (fun o => o.order_id = id)).map Order.quantity).sum +
      ((os.filter (fun o => o.order_id ≠ id)).map Order.quantity).sum =
    (os.map Order.quantity).sum := by
  induction os with
  | nil => simp
  | cons o os ih =>
    by_cases h : o.order_id = id <;>
      simp [h, ← ih, Nat.add_assoc, Nat.add_left_comm]

/-- Level-cache consistency: the cached total equals the sum of the
remaining quantities of the level's orders. -/
def LevelConsistent (l : OrderBookLevel) : Prop :=
  l.total_quantity = l.sumRemaining

theorem levelConsistent_add_order {l : OrderBookLevel} (h : LevelConsistent l) (o : Order) :
    LevelConsistent (l.add_order o) := by
  simp [LevelConsistent, OrderBookLevel.add_order, OrderBookLevel.sumRemaining] at *
  simp [h]

theorem levelConsistent_remove_front {l : OrderBookLevel} (h : LevelConsistent l) :
    LevelConsistent l.remove_front_order := by
  unfold LevelConsistent OrderBookLevel.sumRemaining at *
  unfold OrderBookLevel.remove_front_order
  cases hos : l.orders with
  | nil => simpa [hos] using h
  | cons o os =>
    simp only [hos, List.map_cons, List.sum_cons] at h ⊢
    omega

theorem levelConsistent_remove_order {l : OrderBookLevel} (h : LevelConsistent l) (id : Nat) :
    LevelConsistent (l.remove_order id).1 := by
  unfold LevelConsistent OrderBookLevel.sumRemaining at *
  unfold OrderBookLevel.remove_order
  simp only
  rw [foldl_add_quantity]
  have hp := sum_quantity_filter_partition l.orders id
  omega

theorem insertLevel_consistent {is_bid : Bool} {o : Order} :
    ∀ {ls : List OrderBookLevel}, (∀ l ∈ ls, LevelConsistent l) →
      ∀ l' ∈ insertLevel is_bid o ls, LevelConsistent l' := by
  intro ls
  induction ls with
  | nil =>
    intro _ l' hl'
    simp only [insertLevel, List.mem_singleton] at hl'
    subst hl'
    exact levelConsistent_add_order (by simp [LevelConsistent, OrderBookLevel.sumRemaining]) o
  | cons l ls ih =>
    intro h l' hl'
    simp only [insertLevel] at hl'
    split at hl'
    · rcases List.mem_cons.mp hl' with h1 | h1
      · exact h1 ▸ levelConsistent_add_order (h l (by simp)) o
      · exact h _ (by simp [h1])
    · split at hl'
      · rcases List.mem_cons.mp hl' with h1 | h1
        · exact h1 ▸ levelConsistent_add_order
            (by simp [LevelConsistent, OrderBookLevel.sumRemaining]) o
        · exact h _ h1
      · rcases List.mem_cons.mp hl' with h1 | h1
        · exact h1 ▸ h l (by simp)
        · exact ih (fun a ha => h a (by simp [ha])) _ h1

theorem removeOrderAtPrice_consistent {id price : Nat} :
    ∀ {ls : List OrderBookLevel}, (∀ l ∈ ls, LevelConsistent l) →
      ∀ l' ∈ (OrderBookSide.removeOrderAtPrice id price ls).1, LevelConsistent l' := by
  intro ls
  induction ls with
  | nil => intro _ l' hl'; simp [OrderBookSide.removeOrderAtPrice] at hl'
  | cons l ls ih =>
    intro h l' hl'
    simp only [OrderBookSide.removeOrderAtPrice] at hl'
    split at hl'
    · split at hl'
      · exact h _ (by simp [hl'])
      · rcases List.mem_cons.mp hl' with h1 | h1
        · exact h1 ▸ levelConsistent_remove_order (h l (by simp)) id
        · exact h _ (by simp [h1])
    · rcases List.mem_cons.mp hl' with h1 | h1
      · exact h1 ▸ h l (by simp)
      · exact ih (fun a ha => h a (by simp [ha])) _ h1

theorem applyBookOp_consistent {s : OrderBookSide}
    (h : ∀ l ∈ s.levels, LevelConsistent l) (op : BookOp) :
    ∀ l ∈ (applyBookOp s op).levels, LevelConsistent l := by
  cases op with
  | insert o =>
    exact insertLevel_consistent h
  | popBest =>
    unfold applyBookOp OrderBookSide.remove_best_order
    cases hls : s.levels with
    | nil => simp [hls]
    | cons l ls =>
      simp only
      split
      · exact fun a ha => h a (by simp [hls, List.mem_cons_of_mem _ ha])
      · intro a ha
        rcases List.mem_cons.mp ha with h1 | h1
        · exact h1 ▸ levelConsistent_remove_front (h l (by simp [hls]))
        · exact h a (by simp [hls, List.mem_cons_of_mem _ h1])
  | cancel id price =>
    unfold applyBookOp OrderBookSide.remove_order
    exact removeOrderAtPrice_consistent (by simpa using h)

theorem gm_price (tanhQ : ℚ → ℚ) (st : StrategyState) (cp : ℚ) :
    (StrategyEngine.generate_momentum_signal tanhQ st cp).price = cp := by
  unfold StrategyEngine.generate_momentum_signal
  dsimp only
  split_ifs <;> rfl

theorem gm_quantity (tanhQ : ℚ → ℚ) (st : StrategyState) (cp : ℚ) :
    (StrategyEngine.generate_momentum_signal tanhQ st cp).quantity =
      st.config.position_size := by
  unfold StrategyEngine.generate_momentum_signal
  dsimp only
  split_ifs <;> rfl

theorem gm_buy_not_in_position {tanhQ : ℚ → ℚ} {st : StrategyState} {cp : ℚ}
    (h : (StrategyEngine.generate_momentum_signal tanhQ st cp).stype = SignalType.BUY) :
    st.in_position = false := by
  unfold StrategyEngine.generate_momentum_signal at h
  dsimp only at h
  split_ifs at h
  simp_all

theorem gm_sell_in_position {tanhQ : ℚ → ℚ} {st : StrategyState} {cp : ℚ}
    (h : (StrategyEngine.generate_momentum_signal tanhQ st cp).stype = SignalType.SELL) :
    st.in_position = true := by
  unfold StrategyEngine.generate_momentum_signal at h
  dsimp only at h
  split_ifs at h <;> simp_all

theorem pushHistory_preserves (st : StrategyState) (o : Order) :
    (StrategyEngine.pushHistory st o).config = st.config ∧
      (StrategyEngine.pushHistory st o).in_position = st.in_position ∧
      (StrategyEngine.pushHistory st o).entry_price = st.entry_price := by
  unfold StrategyEngine.pushHistory
  dsimp only
  split_ifs <;> exact ⟨rfl, rfl, rfl⟩

theorem foldl_pushHistory_preserves (orders : List Order) (st : StrategyState) :
    (orders.foldl StrategyEngine.pushHistory st).config = st.config ∧
      (orders.foldl StrategyEngine.pushHistory st).in_position = st.in_position ∧
      (orders.foldl StrategyEngine.pushHistory st).entry_price = st.entry_price := by
  induction orders generalizing st with
  | nil => exact ⟨rfl, rfl, rfl⟩
  | cons o orders ih =>
    obtain ⟨h1, h2, h3⟩ := pushHistory_preserves st o
    obtain ⟨g1, g2, g3⟩ := ih (StrategyEngine.pushHistory st o)
    exact ⟨h1 ▸ g1, h2 ▸ g2, h3 ▸ g3⟩

@[simp]
theorem ordersOf_nil : ordersOf [] = [] := rfl

@[simp]
theorem ordersOf_cons (l : OrderBookLevel) (ls : List OrderBookLevel) :
    ordersOf (l :: ls) = l.orders ++ ordersOf ls := by
  simp [ordersOf]

@[simp]
theorem idsOf_nil : idsOf [] = [] := rfl

@[simp]
theorem idsOf_cons (l : OrderBookLevel) (ls : List OrderBookLevel) :
    idsOf (l :: ls) = l.orders.map Order.order_id ++ idsOf ls := by
  simp [idsOf]

theorem lookupFind_erase_self (lk : List LookupEntry) (id : Nat) :
    lookupFind (lookupErase lk id) id = none := by
  induction lk with
  | nil => rfl
  | cons e lk ih =>
    by_cases he : e.1 = id <;>
      simp_all [lookupFind, lookupErase, List.filter_cons, List.find?_cons]

theorem lookupFind_erase_ne (lk : List LookupEntry) (id id' : Nat) (h : id' ≠ id) :
    lookupFind (lookupErase lk id) id' = lookupFind lk id' := by
  induction lk with
  | nil => rfl
  | cons e lk ih =>
    by_cases he : e.1 = id
    · have : ¬ e.1 = id' := by omega
      simp_all [lookupFind, lookupErase, List.filter_cons, List.find?_cons]
    · by_cases hf : e.1 = id' <;>
        simp_all [lookupFind, lookupErase, List.filter_cons, List.find?_cons]

theorem lookupFind_erase (lk : List LookupEntry) (id id' : Nat) :
    lookupFind (lookupErase lk id) id' = if id' = id then none else lookupFind lk id' := by
  by_cases h : id' = id
  · rw [if_pos h, h]
    exact lookupFind_erase_self lk id
  · rw [if_neg h]
    exact lookupFind_erase_ne lk id id' h

theorem lookupFind_insert_self (lk : List LookupEntry) (id p : Nat) (s : OrderSide) :
    lookupFind (lookupInsert lk id p s) id = some (p, s) := by
  simp [lookupFind, lookupInsert, List.find?_cons]

theorem lookupFind_insert_other (lk : List LookupEntry) (id p : Nat) (s : OrderSide)
    (id' : Nat) (h : id' ≠ id) :
    lookupFind (lookupInsert lk id p s) id' = lookupFind lk id' := by
  have h2 := lookupFind_erase_ne lk id id' h
  have h3 : ¬ (id = id') := fun hc => h hc.symm
  simp only [lookupFind, lookupInsert, List.find?_cons] at h2 ⊢
  simp_all

theorem matchGo_zero_qty (fuel : Nat) (inc : Order) (ls : List OrderBookLevel)
    (lk : List LookupEntry) (tr : List TradeEvent) (h : inc.quantity = 0) :
    matchGo fuel inc ls lk tr = ⟨inc, ls, lk, tr⟩ := by
  cases fuel with
  | zero => rfl
  | succ fuel =>
    cases ls with
    | nil => rfl
    | cons l rest =>
      unfold matchGo
      dsimp only
      rw [if_neg (by omega)]

theorem matchGo_incoming_fields (fuel : Nat) :
    ∀ (inc : Order) (ls : List OrderBookLevel) (lk : List LookupEntry)
      (tr : List TradeEvent),
      (matchGo fuel inc ls lk tr).incoming.order_id = inc.order_id ∧
      (matchGo fuel inc ls lk tr).incoming.side = inc.side ∧
      (matchGo fuel inc ls lk tr).incoming.price = inc.price ∧
      (matchGo fuel inc ls lk tr).incoming.otype = inc.otype := by
  induction fuel with
  | zero => intro inc ls lk tr; exact ⟨rfl, rfl, rfl, rfl⟩
  | succ fuel ih =>
    intro inc ls lk tr
    cases ls with
    | nil => exact ⟨rfl, rfl, rfl, rfl⟩
    | cons l rest =>
      unfold matchGo
      dsimp only
      by_cases h1 : 0 < inc.quantity
      · rw [if_pos h1]
        cases hos : l.orders with
        | nil => exact ⟨rfl, rfl, rfl, rfl⟩
        | cons resting lrest =>
          dsimp only
          split_ifs <;> first | exact ⟨rfl, rfl, rfl, rfl⟩ | exact ih _ _ _ _
      · rw [if_neg h1]
        exact ⟨rfl, rfl, rfl, rfl⟩

theorem ordersTrim_refl (os : List Order) : OrdersTrim os os :=
  ⟨0, Or.inl rfl⟩

theorem ordersTrim_drop_one (os : List Order) : OrdersTrim os os.tail := by
  refine ⟨1, Or.inl ?_⟩
  cases os <;> rfl

theorem ordersTrim_trans {os os' os'' : List Order} (h1 : OrdersTrim os os')
    (h2 : OrdersTrim os' os'') : OrdersTrim os os'' := by
  obtain ⟨k, hk⟩ := h1
  obtain ⟨m, hm⟩ := h2
  rcases hk with hk | ⟨o, rest, q, hdrop, hq, heq⟩
  · subst hk
    rcases hm with hm | ⟨o, rest, q, hdrop', hq, heq⟩
    · exact ⟨k + m, Or.inl (by rw [hm, List.drop_drop])⟩
    · exact ⟨k + m, Or.inr ⟨o, rest, q, by rw [← List.drop_drop]; exact hdrop', hq, heq⟩⟩
  · subst heq
    have htail : os.drop (k + 1) = rest := by
      rw [← List.tail_drop, hdrop]
      rfl
    rcases hm with hm | ⟨o', rest', q', hdrop', hq', heq'⟩
    · cases m with
      | zero =>
        rw [List.drop_zero] at hm
        exact ⟨k, Or.inr ⟨o, rest, q, hdrop, hq, hm⟩⟩
      | succ m =>
        refine ⟨k + 1 + m, Or.inl ?_⟩
        rw [hm, List.drop_succ_cons, ← htail, List.drop_drop]
    · cases m with
      | zero =>
        rw [List.drop_zero] at hdrop'
        injection hdrop' with ho hrest
        subst hrest
        refine ⟨k, Or.inr ⟨o, rest, q', hdrop, ?_, ?_⟩⟩
        · have : o'.quantity = q := by rw [← ho]
          omega
        · rw [heq', ← ho]
      | succ m =>
        rw [List.drop_succ_cons] at hdrop'
        rw [← htail, List.drop_drop] at hdrop'
        exact ⟨k + 1 + m, Or.inr ⟨o', rest', q', hdrop', hq', heq'⟩⟩

theorem sideTrim_refl (ls : List OrderBookLevel) : SideTrim ls ls :=
  Or.inl ⟨0, rfl⟩

theorem sideTrim_of_tail {rest final : List OrderBookLevel} (l : OrderBookLevel)
    (h : SideTrim rest final) : SideTrim (l :: rest) final := by
  rcases h with ⟨k, hk⟩ | ⟨k, a, r, a', hdrop, htrim, hfin⟩
  · exact Or.inl ⟨k + 1, by simpa using hk⟩
  · exact Or.inr ⟨k + 1, a, r, a', by simpa using hdrop, htrim, hfin⟩

theorem levelTrim_trans {l l' l'' : OrderBookLevel} (h1 : LevelTrim l l')
    (h2 : LevelTrim l' l'') : LevelTrim l l'' :=
  ⟨h2.1.trans h1.1, h2.2.1.trans h1.2.1, ordersTrim_trans h1.2.2.1 h2.2.2.1, h2.2.2.2⟩

theorem sideTrim_of_levelTrim {l l' : OrderBookLevel} {rest final : List OrderBookLevel}
    (hl : LevelTrim l l') (h : SideTrim (l' :: rest) final) : SideTrim (l :: rest) final := by
  rcases h with ⟨k, hk⟩ | ⟨k, a, r, a', hdrop, htrim, hfin⟩
  · cases k with
    | zero =>
      subst hk
      exact Or.inr ⟨0, l, rest, l', rfl, hl, rfl⟩
    | succ k =>
      exact Or.inl ⟨k + 1, by simpa using hk⟩
  · cases k with
    | zero =>
      simp only [List.drop_zero] at hdrop
      injection hdrop with ha hr
      exact Or.inr ⟨0, l, rest, a', rfl, levelTrim_trans hl (ha ▸ htrim), hr ▸ hfin⟩
    | succ k =>
      exact Or.inr ⟨k + 1, a, r, a', by simpa using hdrop, htrim, hfin⟩

theorem ordersOf_sublist {ls₁ ls₂ : List OrderBookLevel} (h : List.Sublist ls₁ ls₂) :
    List.Sublist (ordersOf ls₁) (ordersOf ls₂) := by
  induction h with
  | slnil => exact List.Sublist.refl _
  | cons l _ ih =>
    simpa using ih.trans (List.sublist_append_right l.orders _)
  | cons₂ l _ ih =>
    simpa using (List.Sublist.refl l.orders).append ih

theorem ordersTrim_ids {os os' : List Order} (h : OrdersTrim os os') :
    ∃ j, os'.map Order.order_id = (os.map Order.order_id).drop j := by
  obtain ⟨k, hk | ⟨o, rest, q, hdrop, _, heq⟩⟩ := h
  · exact ⟨k, by rw [hk, List.map_drop]⟩
  · refine ⟨k, ?_⟩
    rw [heq, ← List.map_drop, hdrop]
    rfl

theorem sideTrim_ids_sublist {ls ls' : List OrderBookLevel} (h : SideTrim ls ls') :
    List.Sublist (idsOf ls') (idsOf ls) := by
  rcases h with ⟨k, hk⟩ | ⟨k, l, rest, l', hdrop, htrim, hfin⟩
  · subst hk
    exact (ordersOf_sublist (List.drop_sublist k ls)).map _
  · subst hfin
    obtain ⟨j, hj⟩ := ordersTrim_ids htrim.2.2.1
    have h1 : List.Sublist (idsOf (l' :: rest)) (idsOf (l :: rest)) := by
      simp only [idsOf_cons]
      exact (hj ▸ List.drop_sublist j (l.orders.map Order.order_id)).append
        (List.Sublist.refl _)
    refine h1.trans ?_
    have h2 : List.Sublist (l :: rest) ls := hdrop ▸ List.drop_sublist k ls
    exact (ordersOf_sublist h2).map _

theorem sideTrim_orders_weaken {ls ls' : List OrderBookLevel} (h : SideTrim ls ls') :
    ∀ o' ∈ ordersOf ls', ∃ o ∈ ordersOf ls, o'.order_id = o.order_id ∧
      o'.price = o.price ∧ o'.side = o.side ∧ o'.quantity ≤ o.quantity := by
  intro o' ho'
  rcases h with ⟨k, hk⟩ | ⟨k, l, rest, l', hdrop, htrim, hfin⟩
  · subst hk
    exact ⟨o', (ordersOf_sublist (List.drop_sublist k ls)).mem ho', rfl, rfl, rfl, le_rfl⟩
  · subst hfin
    have hsub : List.Sublist (l :: rest) ls := hdrop ▸ List.drop_sublist k ls
    simp only [ordersOf_cons, List.mem_append] at ho'
    rcases ho' with ho' | ho'
    · obtain ⟨j, hj | ⟨o, orest, q, hjdrop, hq, heq⟩⟩ := htrim.2.2.1
      · refine ⟨o', ?_, rfl, rfl, rfl, le_rfl⟩
        have : List.Sublist l.orders (ordersOf (l :: rest)) := by
          rw [ordersOf_cons]
          exact List.sublist_append_left l.orders (ordersOf rest)
        have hin : o' ∈ l.orders := (hj ▸ List.drop_sublist j l.orders).mem ho'
        exact (ordersOf_sublist hsub).mem (this.mem hin)
      · rw [heq] at ho'
        have hmem : ∀ a ∈ l.orders.drop j, a ∈ ordersOf ls := by
          intro a ha
          have h1 : a ∈ l.orders := (List.drop_sublist j l.orders).mem ha
          have h2 : a ∈ ordersOf (l :: rest) := by
            simp only [ordersOf_cons, List.mem_append]
            exact Or.inl h1
          exact (ordersOf_sublist hsub).mem h2
        rcases List.mem_cons.mp ho' with ho' | ho'
        · subst ho'
          refine ⟨o, hmem o (by rw [hjdrop]; exact List.mem_cons_self o orest),
            rfl, rfl, rfl, by simp; omega⟩
        · exact ⟨o', hmem o' (by rw [hjdrop]; exact List.mem_cons_of_mem o ho'),
            rfl, rfl, rfl, le_rfl⟩
    · refine ⟨o', ?_, rfl, rfl, rfl, le_rfl⟩
      have : o' ∈ ordersOf (l :: rest) := by
        simp only [ordersOf_cons, List.mem_append]
        exact Or.inr ho'
      exact (ordersOf_sublist hsub).mem this

theorem sideTrim_sorted {is_bid : Bool} {ls ls' : List OrderBookLevel}
    (h : SideTrim ls ls')
    (hs : ls.Pairwise (fun a b => priceBetter is_bid a.price b.price)) :
    ls'.Pairwise (fun a b => priceBetter is_bid a.price b.price) := by
  rcases h with ⟨k, hk⟩ | ⟨k, l, rest, l', hdrop, htrim, hfin⟩
  · exact hk ▸ hs.sublist (List.drop_sublist k ls)
  · subst hfin
    have h1 : (l :: rest).Pairwise (fun a b => priceBetter is_bid a.price b.price) :=
      hs.sublist (hdrop ▸ List.drop_sublist k ls)
    rw [List.pairwise_cons] at h1 ⊢
    exact ⟨fun b hb => htrim.1 ▸ h1.1 b hb, h1.2⟩

theorem sideTrim_priceMatch {ls ls' : List OrderBookLevel} (h : SideTrim ls ls')
    (hp : ∀ l ∈ ls, ∀ o ∈ l.orders, o.price = l.price) :
    ∀ l ∈ ls', ∀ o ∈ l.orders, o.price = l.price := by
  rcases h with ⟨k, hk⟩ | ⟨k, l, rest, l', hdrop, htrim, hfin⟩
  · subst hk
    exact fun a ha => hp a ((List.drop_sublist k ls).mem ha)
  · subst hfin
    have hsub : List.Sublist (l :: rest) ls := hdrop ▸ List.drop_sublist k ls
    intro a ha o ho
    rcases List.mem_cons.mp ha with ha | ha
    · subst ha
      have hl : ∀ o ∈ l.orders, o.price = l.price :=
        hp l (hsub.mem (List.mem_cons_self l rest))
      rw [htrim.1]
      obtain ⟨j, hj | ⟨ob, orest, q, hjdrop, hq, heq⟩⟩ := htrim.2.2.1
      · exact hl o ((hj ▸ List.drop_sublist j l.orders).mem ho)
      · rw [heq] at ho
        rcases List.mem_cons.mp ho with ho | ho
        · subst ho
          exact hl ob ((List.drop_sublist j l.orders).mem
            (by rw [hjdrop]; exact List.mem_cons_self ob orest))
        · exact hl o ((List.drop_sublist j l.orders).mem
            (by rw [hjdrop]; exact List.mem_cons_of_mem ob ho))
    · exact hp _ (hsub.mem (List.mem_cons_of_mem l ha)) o ho

theorem sideTrim_head_price {is_bid : Bool} {ls ls' : List OrderBookLevel}
    {l l' : OrderBookLevel} {r r' : List OrderBookLevel}
    (h : SideTrim ls ls')
    (hs : ls.Pairwise (fun a b => priceBetter is_bid a.price b.price))
    (hls : ls = l :: r) (hls' : ls' = l' :: r') :
    l'.price = l.price ∨ priceBetter is_bid l.price l'.price := by
  subst hls
  subst hls'
  have hex : ∃ b, b ∈ l :: r ∧ l'.price = b.price := by
    rcases h with ⟨k, hk⟩ | ⟨k, b, rest, b', hdrop, htrim, hfin⟩
    · have hm : l' ∈ l :: r :=
        (hk ▸ List.drop_sublist k (l :: r)).mem (List.mem_cons_self l' r')
      exact ⟨l', hm, rfl⟩
    · injection hfin with h1 h2
      have hb : b ∈ l :: r :=
        (hdrop ▸ List.drop_sublist k (l :: r)).mem (List.mem_cons_self b rest)
      exact ⟨b, hb, by rw [h1, htrim.1]⟩
  obtain ⟨b, hb, hpb⟩ := hex
  rcases List.mem_cons.mp hb with hb | hb
  · exact Or.inl (by rw [hpb, hb])
  · exact Or.inr (by rw [hpb]; exact (List.pairwise_cons.mp hs).1 b hb)

theorem ite_cong_none {p p' : Prop} [Decidable p] [Decidable p']
    {x y : Option (Nat × OrderSide)} (hpq : p ↔ p') (hxy : x = y) :
    (if p then none else x) = (if p' then none else y) := by
  by_cases h : p
  · rw [if_pos h, if_pos (hpq.mp h)]
  · rw [if_neg h, if_neg (fun hc => h (hpq.mpr hc)), hxy]

/-- Central structural lemma about the matching loop: starting from a side
with no empty level and duplicate-free resting ids, the loop trims the
side (`SideTrim`), keeps every level nonempty, and erases from the order
index exactly the ids of the resting orders it removed. -/
theorem matchGo_main (fuel : Nat) :
    ∀ (inc : Order) (ls : List OrderBookLevel) (lk : List LookupEntry)
      (tr : List TradeEvent),
      (∀ l ∈ ls, l.orders ≠ []) →
      (idsOf ls).Nodup →
      SideTrim ls (matchGo fuel inc ls lk tr).levels ∧
      (∀ l ∈ (matchGo fuel inc ls lk tr).levels, l.orders ≠ []) ∧
      (∀ id, lookupFind (matchGo fuel inc ls lk tr).lookup id =
        if id ∈ idsOf ls ∧ id ∉ idsOf (matchGo fuel inc ls lk tr).levels then none
        else lookupFind lk id) := by
  induction fuel with
  | zero =>
    intro inc ls lk tr hne _
    exact ⟨sideTrim_refl ls, hne, fun id => by rw [if_neg (fun h => h.2 h.1)]; rfl⟩
  | succ fuel ih =>
    intro inc ls lk tr hne hnd
    cases ls with
    | nil =>
      exact ⟨sideTrim_refl [], hne, fun id => by rw [if_neg (fun h => h.2 h.1)]; rfl⟩
    | cons l rest =>
      unfold matchGo
      dsimp only
      by_cases h1 : 0 < inc.quantity
      swap
      · rw [if_neg h1]
        exact ⟨sideTrim_refl _, hne, fun id => by rw [if_neg (fun h => h.2 h.1)]⟩
      rw [if_pos h1]
      cases hos : l.orders with
      | nil => exact absurd hos (hne l (List.mem_cons_self l rest))
      | cons resting lrest =>
        dsimp only
        by_cases h2 : crosses inc resting.price
        swap
        · rw [if_neg h2]
          exact ⟨sideTrim_refl _, hne, fun id => by rw [if_neg (fun h => h.2 h.1)]⟩
        rw [if_pos h2]
        have hids : idsOf (l :: rest) =
            resting.order_id :: (lrest.map Order.order_id ++ idsOf rest) := by
          simp [hos]
        have hnotin : resting.order_id ∉ lrest.map Order.order_id ++ idsOf rest := by
          rw [hids] at hnd
          exact (List.nodup_cons.mp hnd).1
        have hndtail : (lrest.map Order.order_id ++ idsOf rest).Nodup := by
          rw [hids] at hnd
          exact (List.nodup_cons.mp hnd).2
        by_cases h3 : resting.quantity - min inc.quantity resting.quantity = 0
        · rw [if_pos h3]
          by_cases h4 : lrest.isEmpty = true
          · rw [if_pos h4]
            have h4' : lrest = [] := by simpa using h4
            obtain ⟨ih1, ih2, ih3⟩ := ih _ rest (lookupErase lk resting.order_id) _
              (fun a ha => hne a (List.mem_cons_of_mem l ha)) (by
                rw [h4'] at hndtail
                simpa using hndtail)
            refine ⟨sideTrim_of_tail l ih1, ih2, ?_⟩
            intro id
            rw [ih3 id]
            have hnr : resting.order_id ∉ idsOf rest := by
              rw [h4'] at hnotin
              simpa using hnotin
            by_cases hid : id = resting.order_id
            · subst hid
              rw [if_neg (fun h => hnr h.1), lookupFind_erase_self]
              rw [if_pos ⟨by rw [hids]; exact List.mem_cons_self _ _,
                fun hc => hnr ((sideTrim_ids_sublist ih1).mem hc)⟩]
            · refine ite_cong_none (and_congr_left' ?_) (lookupFind_erase_ne lk _ id hid)
              rw [hids, h4']
              simp [hid]
          · rw [if_neg h4]
            have h4' : lrest ≠ [] := by simpa using h4
            have hlt : LevelTrim l { l with orders := lrest, total_quantity := l.total_quantity - (resting.quantity - min inc.quantity resting.quantity) } := by
              refine ⟨rfl, ?_, ?_, by simpa using h4'⟩
              · show l.total_quantity - (resting.quantity - min inc.quantity resting.quantity) = l.total_quantity
                rw [h3]
                omega
              · refine ⟨1, Or.inl ?_⟩
                show lrest = l.orders.drop 1
                rw [hos]
                rfl
            obtain ⟨ih1, ih2, ih3⟩ := ih _ ({ l with orders := lrest, total_quantity := l.total_quantity - (resting.quantity - min inc.quantity resting.quantity) } :: rest)
              (lookupErase lk resting.order_id) _
              (by
                intro a ha
                rcases List.mem_cons.mp ha with ha | ha
                · rw [ha]
                  simpa using h4'
                · exact hne a (List.mem_cons_of_mem l ha))
              (by simpa using hndtail)
            refine ⟨sideTrim_of_levelTrim hlt ih1, ih2, ?_⟩
            intro id
            rw [ih3 id]
            by_cases hid : id = resting.order_id
            · subst hid
              rw [if_neg (fun h => hnotin (by simpa using h.1)), lookupFind_erase_self]
              rw [if_pos ⟨by rw [hids]; exact List.mem_cons_self _ _, fun hc => hnotin
                (by simpa using (sideTrim_ids_sublist ih1).mem hc)⟩]
            · refine ite_cong_none (and_congr_left' ?_) (lookupFind_erase_ne lk _ id hid)
              rw [hids]
              simp [hid]
        · rw [if_neg h3]
          have hlt : LevelTrim l { l with orders := { resting with quantity := resting.quantity - min inc.quantity resting.quantity } :: lrest } := by
            refine ⟨rfl, rfl, ?_, by simp⟩
            exact ⟨0, Or.inr ⟨resting, lrest, resting.quantity - min inc.quantity resting.quantity, by rw [hos]; rfl, by omega, rfl⟩⟩
          have hidseq : idsOf ({ l with orders := { resting with quantity := resting.quantity - min inc.quantity resting.quantity } :: lrest } :: rest) = idsOf (l :: rest) := by
            simp [hos]
          obtain ⟨ih1, ih2, ih3⟩ := ih _ ({ l with orders := { resting with quantity := resting.quantity - min inc.quantity resting.quantity } :: lrest } :: rest) lk _
            (by
              intro a ha
              rcases List.mem_cons.mp ha with ha | ha
              · rw [ha]
                simp
              · exact hne a (List.mem_cons_of_mem l ha))
            (by rw [hidseq]; exact hnd)
          refine ⟨sideTrim_of_levelTrim hlt ih1, ih2, ?_⟩
          intro id
          rw [ih3 id, hidseq]


@[simp]
theorem sideOrderCount_nil : sideOrderCount [] = 0 := rfl

@[simp]
theorem sideOrderCount_cons (l : OrderBookLevel) (ls : List OrderBookLevel) :
    sideOrderCount (l :: ls) = l.orders.length + sideOrderCount ls := by
  simp [sideOrderCount]

/-- With adequate fuel, when the loop stops with quantity left and a
nonempty opposite side, the front resting order does not cross: the
`can_match` condition genuinely failed. -/
theorem matchGo_exit (fuel : Nat) :
    ∀ (inc : Order) (ls : List OrderBookLevel) (lk : List LookupEntry)
      (tr : List TradeEvent),
      sideOrderCount ls + inc.quantity < fuel →
      (∀ l ∈ ls, l.orders ≠ []) →
      (matchGo fuel inc ls lk tr).incoming.quantity ≠ 0 →
      ∀ l' o', (matchGo fuel inc ls lk tr).levels.head? = some l' →
        l'.orders.head? = some o' → ¬ crosses inc o'.price := by
  induction fuel with
  | zero => intro inc ls lk tr hfuel; omega
  | succ fuel ih =>
    intro inc ls lk tr hfuel hne hq l' o' hl' ho'
    cases ls with
    | nil => simp [matchGo] at hl'
    | cons l rest =>
      rw [matchGo] at hq hl'
      dsimp only at hq hl'
      by_cases h1 : 0 < inc.quantity
      swap
      · rw [if_neg h1] at hq
        exact absurd (by omega : inc.quantity = 0) hq
      rw [if_pos h1] at hq hl'
      cases hos : l.orders with
      | nil => exact absurd hos (hne l (List.mem_cons_self l rest))
      | cons resting lrest =>
        rw [hos] at hq hl'
        dsimp only at hq hl'
        by_cases h2 : crosses inc resting.price
        swap
        · rw [if_neg h2] at hq hl'
          injection hl' with hl'
          subst hl'
          rw [hos] at ho'
          injection ho' with ho'
          subst ho'
          exact h2
        rw [if_pos h2] at hq hl'
        by_cases h3 : resting.quantity - min inc.quantity resting.quantity = 0
        · rw [if_pos h3] at hq hl'
          by_cases h4 : lrest.isEmpty = true
          · rw [if_pos h4] at hq hl'
            refine ih _ rest _ _ ?_ (fun a ha => hne a (List.mem_cons_of_mem l ha)) hq l' o' hl' ho'
            simp [hos] at hfuel
            simp
            omega
          · rw [if_neg h4] at hq hl'
            refine ih _ _ _ _ ?_ ?_ hq l' o' hl' ho'
            · simp [hos] at hfuel
              simp
              omega
            · intro a ha
              rcases List.mem_cons.mp ha with ha | ha
              · rw [ha]
                simpa using h4
              · exact hne a (List.mem_cons_of_mem l ha)
        · rw [if_neg h3] at hq hl'
          have htq : min inc.quantity resting.quantity = inc.quantity := by omega
          rw [matchGo_zero_qty _ _ _ _ _ (by simp [htq])] at hq
          simp [htq] at hq

/-- With adequate fuel and no empty level, the matching loop refines the
spec-level matching `specLimitMatch` over the flattened priority-ordered
resting orders: same remaining incoming order, same surviving resting
orders, and the trade log extended by exactly the spec's trades. -/
theorem matchGo_spec (fuel : Nat) :
    ∀ (inc : Order) (ls : List OrderBookLevel) (lk : List LookupEntry)
      (tr : List TradeEvent),
      sideOrderCount ls + inc.quantity < fuel →
      (∀ l ∈ ls, l.orders ≠ []) →
      (matchGo fuel inc ls lk tr).incoming = (specLimitMatch inc (ordersOf ls)).1 ∧
      ordersOf (matchGo fuel inc ls lk tr).levels = (specLimitMatch inc (ordersOf ls)).2.1 ∧
      (matchGo fuel inc ls lk tr).trades = tr ++ (specLimitMatch inc (ordersOf ls)).2.2 := by
  induction fuel with
  | zero => intro inc ls lk tr hfuel; omega
  | succ fuel ih =>
    intro inc ls lk tr hfuel hne
    cases ls with
    | nil => simp [matchGo, specLimitMatch, ordersOf]
    | cons l rest =>
      cases hos : l.orders with
      | nil => exact absurd hos (hne l (List.mem_cons_self l rest))
      | cons resting lrest =>
        have hords : ordersOf (l :: rest) = resting :: (lrest ++ ordersOf rest) := by
          simp [hos]
        rw [hords]
        by_cases h1 : 0 < inc.quantity
        swap
        · rw [matchGo_zero_qty _ _ _ _ _ (by omega)]
          rw [specLimitMatch]
          try dsimp only
          rw [if_neg (fun h => h1 h.1), ← hords]
          exact ⟨rfl, rfl, by simp⟩
        by_cases h2 : crosses inc resting.price
        swap
        · have hL : matchGo (fuel + 1) inc (l :: rest) lk tr = ⟨inc, l :: rest, lk, tr⟩ := by
            rw [matchGo]
            try dsimp only
            rw [if_pos h1, hos]
            try dsimp only
            rw [if_neg h2]
          rw [hL, specLimitMatch]
          try dsimp only
          rw [if_neg (fun h => h2 h.2), ← hords]
          exact ⟨rfl, rfl, by simp⟩
        by_cases h3 : resting.quantity - min inc.quantity resting.quantity = 0
        · by_cases h4 : lrest.isEmpty = true
          · have h4' : lrest = [] := by simpa using h4
            have hL : matchGo (fuel + 1) inc (l :: rest) lk tr =
                matchGo fuel { inc with quantity := inc.quantity - min inc.quantity resting.quantity } rest (lookupErase lk resting.order_id) (tr ++ [⟨if inc.side = OrderSide.BUY then inc.order_id else resting.order_id, if inc.side = OrderSide.SELL then inc.order_id else resting.order_id, resting.price, min inc.quantity resting.quantity⟩]) := by
              rw [matchGo]
              try dsimp only
              rw [if_pos h1, hos]
              try dsimp only
              rw [if_pos h2]
              try dsimp only
              rw [if_pos h3, if_pos h4]
            rw [hL, specLimitMatch]
            try dsimp only
            rw [if_pos (And.intro h1 h2)]
            try dsimp only
            rw [if_pos h3]
            obtain ⟨s1, s2, s3⟩ := ih { inc with quantity := inc.quantity - min inc.quantity resting.quantity } rest (lookupErase lk resting.order_id) (tr ++ [⟨if inc.side = OrderSide.BUY then inc.order_id else resting.order_id, if inc.side = OrderSide.SELL then inc.order_id else resting.order_id, resting.price, min inc.quantity resting.quantity⟩]) (by simp [hos] at hfuel; simp; omega) (fun a ha => hne a (List.mem_cons_of_mem l ha))
            have hrs : lrest ++ ordersOf rest = ordersOf rest := by simp [h4']
            rw [hrs]
            rcases hsp : specLimitMatch { inc with quantity := inc.quantity - min inc.quantity resting.quantity } (ordersOf rest) with ⟨a, b, c⟩
            rw [hsp] at s1 s2 s3
            exact ⟨s1, s2, by simp [s3]⟩
          · have hL : matchGo (fuel + 1) inc (l :: rest) lk tr =
                matchGo fuel { inc with quantity := inc.quantity - min inc.quantity resting.quantity } ({ l with orders := lrest, total_quantity := l.total_quantity - (resting.quantity - min inc.quantity resting.quantity) } :: rest) (lookupErase lk resting.order_id) (tr ++ [⟨if inc.side = OrderSide.BUY then inc.order_id else resting.order_id, if inc.side = OrderSide.SELL then inc.order_id else resting.order_id, resting.price, min inc.quantity resting.quantity⟩]) := by
              rw [matchGo]
              try dsimp only
              rw [if_pos h1, hos]
              try dsimp only
              rw [if_pos h2]
              try dsimp only
              rw [if_pos h3, if_neg h4]
            rw [hL, specLimitMatch]
            try dsimp only
            rw [if_pos (And.intro h1 h2)]
            try dsimp only
            rw [if_pos h3]
            obtain ⟨s1, s2, s3⟩ := ih { inc with quantity := inc.quantity - min inc.quantity resting.quantity } ({ l with orders := lrest, total_quantity := l.total_quantity - (resting.quantity - min inc.quantity resting.quantity) } :: rest) (lookupErase lk resting.order_id) (tr ++ [⟨if inc.side = OrderSide.BUY then inc.order_id else resting.order_id, if inc.side = OrderSide.SELL then inc.order_id else resting.order_id, resting.price, min inc.quantity resting.quantity⟩]) (by simp [hos] at hfuel; simp; omega) (by
              intro a ha
              rcases List.mem_cons.mp ha with ha | ha
              · rw [ha]
                simpa using h4
              · exact hne a (List.mem_cons_of_mem l ha))
            have hords2 : ordersOf ({ l with orders := lrest, total_quantity := l.total_quantity - (resting.quantity - min inc.quantity resting.quantity) } :: rest) = lrest ++ ordersOf rest := by
              simp
            rw [hords2] at s1 s2 s3
            rcases hsp : specLimitMatch { inc with quantity := inc.quantity - min inc.quantity resting.quantity } (lrest ++ ordersOf rest) with ⟨a, b, c⟩
            rw [hsp] at s1 s2 s3
            exact ⟨s1, s2, by simp [s3]⟩
        · have htq : min inc.quantity resting.quantity = inc.quantity := by omega
          have hL : matchGo (fuel + 1) inc (l :: rest) lk tr =
              ⟨{ inc with quantity := inc.quantity - min inc.quantity resting.quantity }, { l with orders := { resting with quantity := resting.quantity - min inc.quantity resting.quantity } :: lrest } :: rest, lk, tr ++ [⟨if inc.side = OrderSide.BUY then inc.order_id else resting.order_id, if inc.side = OrderSide.SELL then inc.order_id else resting.order_id, resting.price, min inc.quantity resting.quantity⟩]⟩ := by
            rw [matchGo]
            try dsimp only
            rw [if_pos h1, hos]
            try dsimp only
            rw [if_pos h2]
            try dsimp only
            rw [if_neg h3]
            exact matchGo_zero_qty _ _ _ _ _ (by simp [htq])
          rw [hL, specLimitMatch]
          try dsimp only
          rw [if_pos (And.intro h1 h2)]
          try dsimp only
          rw [if_neg h3]
          exact ⟨rfl, by simp, by simp⟩


/-- The matching loop only removes resting orders: the surviving ids form
a subsequence of the original ids (no hypotheses needed). -/
theorem matchGo_ids_sublist (fuel : Nat) :
    ∀ (inc : Order) (ls : List OrderBookLevel) (lk : List LookupEntry)
      (tr : List TradeEvent),
      List.Sublist (idsOf (matchGo fuel inc ls lk tr).levels) (idsOf ls) := by
  induction fuel with
  | zero => intro inc ls lk tr; exact List.Sublist.refl _
  | succ fuel ih =>
    intro inc ls lk tr
    cases ls with
    | nil => exact List.Sublist.refl _
    | cons l rest =>
      rw [matchGo]
      dsimp only
      by_cases h1 : 0 < inc.quantity
      swap
      · rw [if_neg h1]
      rw [if_pos h1]
      cases hos : l.orders with
      | nil => exact List.Sublist.refl _
      | cons resting lrest =>
        dsimp only
        by_cases h2 : crosses inc resting.price
        swap
        · rw [if_neg h2]
        rw [if_pos h2]
        have hids : idsOf (l :: rest) =
            resting.order_id :: (lrest.map Order.order_id ++ idsOf rest) := by
          simp [hos]
        by_cases h3 : resting.quantity - min inc.quantity resting.quantity = 0
        · rw [if_pos h3]
          by_cases h4 : lrest.isEmpty = true
          · rw [if_pos h4]
            refine (ih _ rest _ _).trans ?_
            rw [hids]
            refine List.Sublist.trans ?_ (List.sublist_cons_self _ _)
            exact List.sublist_append_right _ _
          · rw [if_neg h4]
            refine (ih _ _ _ _).trans ?_
            rw [hids]
            refine List.Sublist.trans (by simp) (List.sublist_cons_self _ _)
        · rw [if_neg h3]
          refine (ih _ _ _ _).trans ?_
          rw [hids]
          simp [hos]

/-- The matching loop only erases order-index entries, so an absent id
stays absent. -/
theorem matchGo_lookup_none (fuel : Nat) :
    ∀ (inc : Order) (ls : List OrderBookLevel) (lk : List LookupEntry)
      (tr : List TradeEvent) (id : Nat),
      lookupFind lk id = none →
      lookupFind (matchGo fuel inc ls lk tr).lookup id = none := by
  induction fuel with
  | zero => intro inc ls lk tr id h; exact h
  | succ fuel ih =>
    intro inc ls lk tr id h
    cases ls with
    | nil => exact h
    | cons l rest =>
      rw [matchGo]
      dsimp only
      by_cases h1 : 0 < inc.quantity
      swap
      · rw [if_neg h1]; exact h
      rw [if_pos h1]
      cases hos : l.orders with
      | nil => exact h
      | cons resting lrest =>
        dsimp only
        by_cases h2 : crosses inc resting.price
        swap
        · rw [if_neg h2]; exact h
        rw [if_pos h2]
        have herase : lookupFind (lookupErase lk resting.order_id) id = none := by
          rw [lookupFind_erase]
          split_ifs with hc
          · rfl
          · exact h
        by_cases h3 : resting.quantity - min inc.quantity resting.quantity = 0
        · rw [if_pos h3]
          by_cases h4 : lrest.isEmpty = true
          · rw [if_pos h4]
            exact ih _ _ _ _ _ herase
          · rw [if_neg h4]
            exact ih _ _ _ _ _ herase
        · rw [if_neg h3]
          exact ih _ _ _ _ _ h

/-- All resting order ids of the engine, bids then asks. -/
def bookIds (e : MatchingEngine) : List Nat :=
  idsOf e.bid_side.levels ++ idsOf e.ask_side.levels

theorem priceBetter_trans {b : Bool} {p q r : Nat} (h1 : priceBetter b p q)
    (h2 : priceBetter b q r) : priceBetter b p r := by
  unfold priceBetter at *
  cases b <;> simp_all <;> omega

theorem priceBetter_of_ne {b : Bool} {p q : Nat} (hne : p ≠ q)
    (h : ¬ priceBetter b p q) : priceBetter b q p := by
  unfold priceBetter at *
  cases b <;> simp_all <;> omega

/-- Members of `insertLevel` are old levels, the freshly created level, or
an old level with the order appended. -/
theorem insertLevel_mem {is_bid : Bool} {o : Order} :
    ∀ {ls : List OrderBookLevel} {x : OrderBookLevel}, x ∈ insertLevel is_bid o ls →
      x ∈ ls ∨ x.price = o.price ∨ ∃ l, l ∈ ls ∧ x = OrderBookLevel.add_order l o := by
  intro ls
  induction ls with
  | nil =>
    intro x hx
    simp only [insertLevel, List.mem_singleton] at hx
    exact Or.inr (Or.inl (by rw [hx]; rfl))
  | cons l ls ih =>
    intro x hx
    simp only [insertLevel] at hx
    split_ifs at hx with he hb
    · rcases List.mem_cons.mp hx with hx | hx
      · exact Or.inr (Or.inr ⟨l, List.mem_cons_self l ls, hx⟩)
      · exact Or.inl (List.mem_cons_of_mem l hx)
    · rcases List.mem_cons.mp hx with hx | hx
      · exact Or.inr (Or.inl (by rw [hx]; rfl))
      · exact Or.inl hx
    · rcases List.mem_cons.mp hx with hx | hx
      · exact Or.inl (by rw [hx]; exact List.mem_cons_self l ls)
      · rcases ih hx with h | h | ⟨a, ha, hxa⟩
        · exact Or.inl (List.mem_cons_of_mem l h)
        · exact Or.inr (Or.inl h)
        · exact Or.inr (Or.inr ⟨a, List.mem_cons_of_mem l ha, hxa⟩)

theorem insertLevel_nonempty {is_bid : Bool} {o : Order} :
    ∀ {ls : List OrderBookLevel}, (∀ l ∈ ls, l.orders ≠ []) →
      ∀ l' ∈ insertLevel is_bid o ls, l'.orders ≠ [] := by
  intro ls
  induction ls with
  | nil =>
    intro _ l' hl'
    simp only [insertLevel, List.mem_singleton] at hl'
    rw [hl']
    simp [OrderBookLevel.add_order]
  | cons l ls ih =>
    intro hne l' hl'
    simp only [insertLevel] at hl'
    split_ifs at hl' with he hb
    · rcases List.mem_cons.mp hl' with hx | hx
      · rw [hx]
        simp [OrderBookLevel.add_order]
      · exact hne _ (List.mem_cons_of_mem l hx)
    · rcases List.mem_cons.mp hl' with hx | hx
      · rw [hx]
        simp [OrderBookLevel.add_order]
      · exact hne _ hx
    · rcases List.mem_cons.mp hl' with hx | hx
      · exact hne _ (by rw [hx]; exact List.mem_cons_self l ls)
      · exact ih (fun a ha => hne a (List.mem_cons_of_mem l ha)) _ hx

theorem insertLevel_priceMatch {is_bid : Bool} {o : Order} :
    ∀ {ls : List OrderBookLevel}, (∀ l ∈ ls, ∀ a ∈ l.orders, a.price = l.price) →
      ∀ l' ∈ insertLevel is_bid o ls, ∀ a ∈ l'.orders, a.price = l'.price := by
  intro ls
  induction ls with
  | nil =>
    intro _ l' hl' a ha
    simp only [insertLevel, List.mem_singleton] at hl'
    rw [hl'] at ha ⊢
    simp only [OrderBookLevel.add_order, List.nil_append, List.mem_singleton] at ha
    rw [ha]
    simp [OrderBookLevel.add_order]
  | cons l ls ih =>
    intro hp l' hl' a ha
    simp only [insertLevel] at hl'
    split_ifs at hl' with he hb
    · rcases List.mem_cons.mp hl' with hx | hx
      · rw [hx] at ha ⊢
        simp only [OrderBookLevel.add_order, List.mem_append, List.mem_singleton] at ha ⊢
        rcases ha with ha | ha
        · exact hp l (List.mem_cons_self l ls) a ha
        · rw [ha]
          exact he
      · exact hp _ (List.mem_cons_of_mem l hx) a ha
    · rcases List.mem_cons.mp hl' with hx | hx
      · rw [hx] at ha ⊢
        simp only [OrderBookLevel.add_order, List.nil_append, List.mem_singleton] at ha ⊢
        rw [ha]
      · exact hp _ hx a ha
    · rcases List.mem_cons.mp hl' with hx | hx
      · rw [hx] at ha ⊢
        exact hp l (List.mem_cons_self l ls) a ha
      · exact ih (fun b hbm => hp b (List.mem_cons_of_mem l hbm)) _ hx a ha

theorem insertLevel_sorted {is_bid : Bool} {o : Order} :
    ∀ {ls : List OrderBookLevel},
      ls.Pairwise (fun a b => priceBetter is_bid a.price b.price) →
      (insertLevel is_bid o ls).Pairwise (fun a b => priceBetter is_bid a.price b.price) := by
  intro ls
  induction ls with
  | nil => intro _; simp [insertLevel]
  | cons l ls ih =>
    intro hs
    rw [List.pairwise_cons] at hs
    simp only [insertLevel]
    split_ifs with he hb
    · rw [List.pairwise_cons]
      exact ⟨fun b hb => hs.1 b hb, hs.2⟩
    · rw [List.pairwise_cons]
      refine ⟨?_, List.pairwise_cons.mpr hs⟩
      intro b hbm
      rcases List.mem_cons.mp hbm with hbm | hbm
      · rw [hbm]
        exact hb
      · exact priceBetter_trans hb (hs.1 b hbm)
    · rw [List.pairwise_cons]
      refine ⟨?_, ih hs.2⟩
      intro b hbm
      rcases insertLevel_mem hbm with h | h | ⟨a, ha, hba⟩
      · exact hs.1 b h
      · rw [h]
        exact priceBetter_of_ne he hb
      · have : b.price = a.price := by rw [hba]; rfl
        rw [this]
        exact hs.1 a ha

/-- The best level after an insertion is either the freshly inserted price
or the previous best. -/
theorem insertLevel_head_price {is_bid : Bool} {o : Order} :
    ∀ {ls : List OrderBookLevel} {h' : OrderBookLevel} {r' : List OrderBookLevel},
      insertLevel is_bid o ls = h' :: r' →
      h'.price = o.price ∨ ∃ l r, ls = l :: r ∧ h'.price = l.price := by
  intro ls h' r' heq
  cases ls with
  | nil =>
    simp only [insertLevel] at heq
    injection heq with h1 _
    exact Or.inl (by rw [← h1]; rfl)
  | cons l rest =>
    simp only [insertLevel] at heq
    split_ifs at heq with he hb
    · injection heq with h1 _
      exact Or.inr ⟨l, rest, rfl, by rw [← h1]; rfl⟩
    · injection heq with h1 _
      exact Or.inl (by rw [← h1]; rfl)
    · injection heq with h1 _
      exact Or.inr ⟨l, rest, rfl, by rw [← h1]⟩

/-- `matchGo_main` without the Nodup hypothesis: the trim and nonemptiness
facts alone. -/
theorem matchGo_trim (fuel : Nat) :
    ∀ (inc : Order) (ls : List OrderBookLevel) (lk : List LookupEntry)
      (tr : List TradeEvent),
      (∀ l ∈ ls, l.orders ≠ []) →
      SideTrim ls (matchGo fuel inc ls lk tr).levels ∧
      (∀ l ∈ (matchGo fuel inc ls lk tr).levels, l.orders ≠ []) := by
  induction fuel with
  | zero => intro inc ls lk tr hne; exact ⟨sideTrim_refl ls, hne⟩
  | succ fuel ih =>
    intro inc ls lk tr hne
    cases ls with
    | nil => exact ⟨sideTrim_refl [], hne⟩
    | cons l rest =>
      rw [matchGo]
      dsimp only
      by_cases h1 : 0 < inc.quantity
      swap
      · rw [if_neg h1]
        exact ⟨sideTrim_refl _, hne⟩
      rw [if_pos h1]
      cases hos : l.orders with
      | nil => exact absurd hos (hne l (List.mem_cons_self l rest))
      | cons resting lrest =>
        dsimp only
        by_cases h2 : crosses inc resting.price
        swap
        · rw [if_neg h2]
          exact ⟨sideTrim_refl _, hne⟩
        rw [if_pos h2]
        by_cases h3 : resting.quantity - min inc.quantity resting.quantity = 0
        · rw [if_pos h3]
          by_cases h4 : lrest.isEmpty = true
          · rw [if_pos h4]
            obtain ⟨ih1, ih2⟩ := ih _ rest (lookupErase lk resting.order_id) _
              (fun a ha => hne a (List.mem_cons_of_mem l ha))
            exact ⟨sideTrim_of_tail l ih1, ih2⟩
          · rw [if_neg h4]
            have h4' : lrest ≠ [] := by simpa using h4
            have hlt : LevelTrim l { l with orders := lrest, total_quantity := l.total_quantity - (resting.quantity - min inc.quantity resting.quantity) } := by
              refine ⟨rfl, ?_, ?_, by simpa using h4'⟩
              · show l.total_quantity -
                  (resting.quantity - min inc.quantity resting.quantity) = l.total_quantity
                rw [h3]
                omega
              · refine ⟨1, Or.inl ?_⟩
                show lrest = l.orders.drop 1
                rw [hos]
                rfl
            obtain ⟨ih1, ih2⟩ := ih _ ({ l with orders := lrest, total_quantity := l.total_quantity - (resting.quantity - min inc.quantity resting.quantity) } :: rest)
              (lookupErase lk resting.order_id) _
              (by
                intro a ha
                rcases List.mem_cons.mp ha with ha | ha
                · rw [ha]
                  simpa using h4'
                · exact hne a (List.mem_cons_of_mem l ha))
            exact ⟨sideTrim_of_levelTrim hlt ih1, ih2⟩
        · rw [if_neg h3]
          have hlt : LevelTrim l { l with orders := { resting with quantity := resting.quantity - min inc.quantity resting.quantity } :: lrest } := by
            refine ⟨rfl, rfl, ?_, by simp⟩
            exact ⟨0, Or.inr ⟨resting, lrest, resting.quantity -
              min inc.quantity resting.quantity, by rw [hos]; rfl, by omega, rfl⟩⟩
          obtain ⟨ih1, ih2⟩ := ih _ ({ l with orders := { resting with quantity := resting.quantity - min inc.quantity resting.quantity } :: lrest } :: rest) lk _
            (by
              intro a ha
              rcases List.mem_cons.mp ha with ha | ha
              · rw [ha]
                simp
              · exact hne a (List.mem_cons_of_mem l ha))
          exact ⟨sideTrim_of_levelTrim hlt ih1, ih2⟩

/-- Well-formedness of one book side: no empty level, levels sorted
best-first by the side's priority, and every resting order sits in the
level of its own price. -/
def SideWF (s : OrderBookSide) : Prop :=
  (∀ l ∈ s.levels, l.orders ≠ []) ∧
  s.levels.Pairwise (fun a b => priceBetter s.is_bid_side a.price b.price) ∧
  (∀ l ∈ s.levels, ∀ a ∈ l.orders, a.price = l.price)

/-- The engine invariant behind C9: correctly flagged well-formed sides
and, when both are populated, a strictly positive spread. -/
def EngineInv9 (e : MatchingEngine) : Prop :=
  e.bid_side.is_bid_side = true ∧ e.ask_side.is_bid_side = false ∧
  SideWF e.bid_side ∧ SideWF e.ask_side ∧
  (e.bid_side.levels ≠ [] → e.ask_side.levels ≠ [] →
    e.bid_side.get_best_price < e.ask_side.get_best_price)

theorem sideTrim_nil {ls' : List OrderBookLevel} (h : SideTrim [] ls') : ls' = [] := by
  rcases h with ⟨k, hk⟩ | ⟨k, l, rest, l', hdrop, _, _⟩
  · simpa using hk
  · simp at hdrop

theorem insertLevel_ne_nil {is_bid : Bool} {o : Order} {ls : List OrderBookLevel} :
    insertLevel is_bid o ls ≠ [] := by
  cases ls with
  | nil => simp [insertLevel]
  | cons l rest =>
    simp only [insertLevel]
    split_ifs <;> simp

theorem sideWF_of_trim {s : OrderBookSide} {ls' : List OrderBookLevel}
    (hw : SideWF s) (ht : SideTrim s.levels ls') (hne : ∀ l ∈ ls', l.orders ≠ []) :
    SideWF { s with levels := ls' } :=
  ⟨hne, sideTrim_sorted ht hw.2.1, sideTrim_priceMatch ht hw.2.2⟩

theorem sideWF_add_order {s : OrderBookSide} (hw : SideWF s) (o : Order) :
    SideWF (s.add_order o) :=
  ⟨insertLevel_nonempty hw.1, insertLevel_sorted hw.2.1, insertLevel_priceMatch hw.2.2⟩

theorem get_best_price_cons {s : OrderBookSide} {l : OrderBookLevel}
    {r : List OrderBookLevel} (h : s.levels = l :: r) : s.get_best_price = l.price := by
  unfold OrderBookSide.get_best_price
  rw [h]

/-- The best price of a matched (trimmed) ask side never decreases, and a
trimmed bid side's best never increases: the surviving best price equals
an original level's price no better than the original best. -/
theorem trim_best_price {s : OrderBookSide} {ls' : List OrderBookLevel}
    (hw : SideWF s) (ht : SideTrim s.levels ls') (hne' : ls' ≠ []) :
    s.levels ≠ [] ∧
    ∀ l' r', ls' = l' :: r' → ∀ l r, s.levels = l :: r →
      (l'.price = l.price ∨ priceBetter s.is_bid_side l.price l'.price) := by
  constructor
  · intro hnil
    exact hne' (sideTrim_nil (hnil ▸ ht))
  · intro l' r' h' l r h
    exact sideTrim_head_price ht hw.2.1 h h'

/-- The front resting order of a nonempty well-formed side exists and
carries the side's best price. -/
theorem front_order_of_wf {s : OrderBookSide} {l : OrderBookLevel}
    {r : List OrderBookLevel} (hw : SideWF s) (h : s.levels = l :: r) :
    ∃ o, l.orders.head? = some o ∧ o.price = l.price := by
  have hne := hw.1 l (h ▸ List.mem_cons_self l r)
  cases hos : l.orders with
  | nil => exact absurd hos hne
  | cons o rest =>
    exact ⟨o, rfl, hw.2.2 l (h ▸ List.mem_cons_self l r) o (hos ▸ List.mem_cons_self o rest)⟩

theorem engineInv9_step (e : MatchingEngine) (o : Order) (hinv : EngineInv9 e) :
    EngineInv9 (e.add_order o) := by
  obtain ⟨hbf, haf, hwb, hwa, hrel⟩ := hinv
  unfold MatchingEngine.add_order
  by_cases hty : o.otype = OrderType.MARKET
  · rw [if_pos hty]
    unfold process_market_order
    by_cases hside : o.side = OrderSide.BUY
    · rw [if_pos hside]
      obtain ⟨ht, hne'⟩ := matchGo_trim (sideOrderCount e.ask_side.levels + o.quantity + 1)
        o e.ask_side.levels e.order_lookup e.trade_events hwa.1
      refine ⟨hbf, haf, hwb, sideWF_of_trim hwa ht hne', ?_⟩
      intro hb' ha'
      dsimp only at hb' ha' ⊢
      have hoa : e.ask_side.levels ≠ [] := fun hnil => ha' (sideTrim_nil (hnil ▸ ht))
      obtain ⟨la, ra, hl'⟩ := List.exists_cons_of_ne_nil ha'
      obtain ⟨l0, r0, hl⟩ := List.exists_cons_of_ne_nil hoa
      have hhead := sideTrim_head_price ht hwa.2.1 hl hl'
      rw [haf] at hhead
      simp only [priceBetter, Bool.false_eq_true, if_false] at hhead
      have h0 := hrel hb' hoa
      rw [get_best_price_cons hl] at h0
      rw [get_best_price_cons (s := { e.ask_side with levels :=
        (match_order_against_side o e.ask_side.levels e.order_lookup
          e.trade_events).levels }) hl']
      rcases hhead with hh | hh
      · omega
      · omega
    · rw [if_neg hside]
      obtain ⟨ht, hne'⟩ := matchGo_trim (sideOrderCount e.bid_side.levels + o.quantity + 1)
        o e.bid_side.levels e.order_lookup e.trade_events hwb.1
      refine ⟨hbf, haf, sideWF_of_trim hwb ht hne', hwa, ?_⟩
      intro hb' ha'
      dsimp only at hb' ha' ⊢
      have hob : e.bid_side.levels ≠ [] := fun hnil => hb' (sideTrim_nil (hnil ▸ ht))
      obtain ⟨lb, rb, hl'⟩ := List.exists_cons_of_ne_nil hb'
      obtain ⟨l0, r0, hl⟩ := List.exists_cons_of_ne_nil hob
      have hhead := sideTrim_head_price ht hwb.2.1 hl hl'
      rw [hbf] at hhead
      simp only [priceBetter, if_true] at hhead
      have h0 := hrel hob ha'
      rw [get_best_price_cons hl] at h0
      rw [get_best_price_cons (s := { e.bid_side with levels :=
        (match_order_against_side o e.bid_side.levels e.order_lookup
          e.trade_events).levels }) hl']
      rcases hhead with hh | hh
      · omega
      · omega
  · rw [if_neg hty]
    unfold process_limit_order
    by_cases hside : o.side = OrderSide.BUY
    · rw [if_pos hside]
      obtain ⟨ht, hne'⟩ := matchGo_trim (sideOrderCount e.ask_side.levels + o.quantity + 1)
        o e.ask_side.levels e.order_lookup e.trade_events hwa.1
      obtain ⟨f1, f2, f3, f4⟩ :=
        matchGo_incoming_fields (sideOrderCount e.ask_side.levels + o.quantity + 1)
          o e.ask_side.levels e.order_lookup e.trade_events
      by_cases hq : 0 < (match_order_against_side o e.ask_side.levels e.order_lookup
          e.trade_events).incoming.quantity
      · rw [if_pos hq]
        refine ⟨hbf, haf, sideWF_add_order hwb _, sideWF_of_trim hwa ht hne', ?_⟩
        intro hb' ha'
        dsimp only at hb' ha' ⊢
        have hoa : e.ask_side.levels ≠ [] := fun hnil => ha' (sideTrim_nil (hnil ▸ ht))
        obtain ⟨la, ra, hl'⟩ := List.exists_cons_of_ne_nil ha'
        obtain ⟨l0, r0, hl⟩ := List.exists_cons_of_ne_nil hoa
        have hwa' : SideWF { e.ask_side with levels :=
            (match_order_against_side o e.ask_side.levels e.order_lookup
              e.trade_events).levels } := sideWF_of_trim hwa ht hne'
        obtain ⟨oa, hoa1, hoa2⟩ := front_order_of_wf hwa'
          (show ({ e.ask_side with levels :=
            (match_order_against_side o e.ask_side.levels e.order_lookup
              e.trade_events).levels }).levels = la :: ra from hl')
        have hq' : (matchGo (sideOrderCount e.ask_side.levels + o.quantity + 1) o
            e.ask_side.levels e.order_lookup e.trade_events).incoming.quantity ≠ 0 :=
          Nat.pos_iff_ne_zero.mp hq
        have hhd : (matchGo (sideOrderCount e.ask_side.levels + o.quantity + 1) o
            e.ask_side.levels e.order_lookup e.trade_events).levels.head? = some la := by
          rw [show (matchGo (sideOrderCount e.ask_side.levels + o.quantity + 1) o
            e.ask_side.levels e.order_lookup e.trade_events).levels = la :: ra from hl']
          rfl
        have hncross := matchGo_exit (sideOrderCount e.ask_side.levels + o.quantity + 1)
          o e.ask_side.levels e.order_lookup e.trade_events (by omega) hwa.1 hq'
          la oa hhd hoa1
        have hop : o.price < oa.price := by
          unfold crosses at hncross
          rw [if_pos hside] at hncross
          push_neg at hncross
          exact hncross.2
        obtain ⟨lb, rb, hlb'⟩ := List.exists_cons_of_ne_nil hb'
        rw [get_best_price_cons hlb']
        rw [get_best_price_cons (s := { e.ask_side with levels :=
          (match_order_against_side o e.ask_side.levels e.order_lookup
            e.trade_events).levels }) hl']
        have hins := insertLevel_head_price (show insertLevel e.bid_side.is_bid_side
          (match_order_against_side o e.ask_side.levels e.order_lookup
            e.trade_events).incoming e.bid_side.levels = lb :: rb from hlb')
        rcases hins with hh | ⟨l1, r1, hl1, hh⟩
        · rw [hh, show (match_order_against_side o e.ask_side.levels e.order_lookup
            e.trade_events).incoming.price = o.price from f3]
          exact hoa2 ▸ hop
        · have h0 := hrel (by simp [hl1]) hoa
          have hhead := sideTrim_head_price ht hwa.2.1 hl hl'
          rw [haf] at hhead
          simp only [priceBetter, Bool.false_eq_true, if_false] at hhead
          rw [get_best_price_cons hl1, get_best_price_cons hl] at h0
          rw [hh]
          rcases hhead with hx | hx
          · omega
          · omega
      · rw [if_neg hq]
        refine ⟨hbf, haf, hwb, sideWF_of_trim hwa ht hne', ?_⟩
        intro hb' ha'
        dsimp only at hb' ha' ⊢
        have hoa : e.ask_side.levels ≠ [] := fun hnil => ha' (sideTrim_nil (hnil ▸ ht))
        obtain ⟨la, ra, hl'⟩ := List.exists_cons_of_ne_nil ha'
        obtain ⟨l0, r0, hl⟩ := List.exists_cons_of_ne_nil hoa
        have hhead := sideTrim_head_price ht hwa.2.1 hl hl'
        rw [haf] at hhead
        simp only [priceBetter, Bool.false_eq_true, if_false] at hhead
        have h0 := hrel hb' hoa
        rw [get_best_price_cons hl] at h0
        rw [get_best_price_cons (s := { e.ask_side with levels :=
          (match_order_against_side o e.ask_side.levels e.order_lookup
            e.trade_events).levels }) hl']
        rcases hhead with hh | hh
        · omega
        · omega
    · rw [if_neg hside]
      obtain ⟨ht, hne'⟩ := matchGo_trim (sideOrderCount e.bid_side.levels + o.quantity + 1)
        o e.bid_side.levels e.order_lookup e.trade_events hwb.1
      obtain ⟨f1, f2, f3, f4⟩ :=
        matchGo_incoming_fields (sideOrderCount e.bid_side.levels + o.quantity + 1)
          o e.bid_side.levels e.order_lookup e.trade_events
      by_cases hq : 0 < (match_order_against_side o e.bid_side.levels e.order_lookup
          e.trade_events).incoming.quantity
      · rw [if_pos hq]
        refine ⟨hbf, haf, sideWF_of_trim hwb ht hne', sideWF_add_order hwa _, ?_⟩
        intro hb' ha'
        dsimp only at hb' ha' ⊢
        have hob : e.bid_side.levels ≠ [] := fun hnil => hb' (sideTrim_nil (hnil ▸ ht))
        obtain ⟨lb, rb, hl'⟩ := List.exists_cons_of_ne_nil hb'
        obtain ⟨l0, r0, hl⟩ := List.exists_cons_of_ne_nil hob
        have hwb' : SideWF { e.bid_side with levels :=
            (match_order_against_side o e.bid_side.levels e.order_lookup
              e.trade_events).levels } := sideWF_of_trim hwb ht hne'
        obtain ⟨ob, hob1, hob2⟩ := front_order_of_wf hwb'
          (show ({ e.bid_side with levels :=
            (match_order_against_side o e.bid_side.levels e.order_lookup
              e.trade_events).levels }).levels = lb :: rb from hl')
        have hq' : (matchGo (sideOrderCount e.bid_side.levels + o.quantity + 1) o
            e.bid_side.levels e.order_lookup e.trade_events).incoming.quantity ≠ 0 :=
          Nat.pos_iff_ne_zero.mp hq
        have hhd : (matchGo (sideOrderCount e.bid_side.levels + o.quantity + 1) o
            e.bid_side.levels e.order_lookup e.trade_events).levels.head? = some lb := by
          rw [show (matchGo (sideOrderCount e.bid_side.levels + o.quantity + 1) o
            e.bid_side.levels e.order_lookup e.trade_events).levels = lb :: rb from hl']
          rfl
        have hncross := matchGo_exit (sideOrderCount e.bid_side.levels + o.quantity + 1)
          o e.bid_side.levels e.order_lookup e.trade_events (by omega) hwb.1 hq'
          lb ob hhd hob1
        have hop : ob.price < o.price := by
          unfold crosses at hncross
          rw [if_neg hside] at hncross
          push_neg at hncross
          exact hncross.2
        obtain ⟨la, ra, hla'⟩ := List.exists_cons_of_ne_nil ha'
        rw [get_best_price_cons hla']
        rw [get_best_price_cons (s := { e.bid_side with levels :=
          (match_order_against_side o e.bid_side.levels e.order_lookup
            e.trade_events).levels }) hl']
        have hins := insertLevel_head_price (show insertLevel e.ask_side.is_bid_side
          (match_order_against_side o e.bid_side.levels e.order_lookup
            e.trade_events).incoming e.ask_side.levels = la :: ra from hla')
        rcases hins with hh | ⟨l1, r1, hl1, hh⟩
        · rw [hh, show (match_order_against_side o e.bid_side.levels e.order_lookup
            e.trade_events).incoming.price = o.price from f3]
          exact hob2 ▸ hop
        · have h0 := hrel hob (by simp [hl1])
          have hhead := sideTrim_head_price ht hwb.2.1 hl hl'
          rw [hbf] at hhead
          simp only [priceBetter, if_true] at hhead
          rw [get_best_price_cons hl, get_best_price_cons hl1] at h0
          rw [hh]
          rcases hhead with hx | hx
          · omega
          · omega
      · rw [if_neg hq]
        refine ⟨hbf, haf, sideWF_of_trim hwb ht hne', hwa, ?_⟩
        intro hb' ha'
        dsimp only at hb' ha' ⊢
        have hob : e.bid_side.levels ≠ [] := fun hnil => hb' (sideTrim_nil (hnil ▸ ht))
        obtain ⟨lb, rb, hl'⟩ := List.exists_cons_of_ne_nil hb'
        obtain ⟨l0, r0, hl⟩ := List.exists_cons_of_ne_nil hob
        have hhead := sideTrim_head_price ht hwb.2.1 hl hl'
        rw [hbf] at hhead
        simp only [priceBetter, if_true] at hhead
        have h0 := hrel hob ha'
        rw [get_best_price_cons hl] at h0
        rw [get_best_price_cons (s := { e.bid_side with levels :=
          (match_order_against_side o e.bid_side.levels e.order_lookup
            e.trade_events).levels }) hl']
        rcases hhead with hh | hh
        · omega
        · omega

theorem engineInv9_empty : EngineInv9 MatchingEngine.empty :=
  ⟨rfl, rfl,
    ⟨fun l hl => absurd hl (List.not_mem_nil l), List.Pairwise.nil,
      fun l hl => absurd hl (List.not_mem_nil l)⟩,
    ⟨fun l hl => absurd hl (List.not_mem_nil l), List.Pairwise.nil,
      fun l hl => absurd hl (List.not_mem_nil l)⟩,
    fun h _ => absurd rfl h⟩

theorem engineInv9_foldl (orders : List Order) :
    ∀ e : MatchingEngine, EngineInv9 e →
      EngineInv9 (orders.foldl MatchingEngine.add_order e) := by
  induction orders with
  | nil => intro e he; exact he
  | cons o os ih => intro e he; exact ih _ (engineInv9_step e o he)

/-- `id` has a resting order with price `p` somewhere in the level list. -/
def SideAssoc (ls : List OrderBookLevel) (id p : Nat) : Prop :=
  ∃ o, o ∈ ordersOf ls ∧ o.order_id = id ∧ o.price = p

/-- The order-index contract of the spec: `id` rests in the book exactly
at `(p, sd)`. -/
def RestsAt (e : MatchingEngine) (id p : Nat) (sd : OrderSide) : Prop :=
  (sd = OrderSide.BUY ∧ SideAssoc e.bid_side.levels id p) ∨
  (sd = OrderSide.SELL ∧ SideAssoc e.ask_side.levels id p)

/-- C4 coherence invariant, relative to the set `used` of ids submitted so
far: correct side flags, both sides well formed (no empty level, sorted,
orders priced at their level), duplicate-free resting ids drawn from
`used`, and an order index that holds an id iff the order rests in the
book, mapped to its exact price and side. -/
def EngineInv4 (used : List Nat) (e : MatchingEngine) : Prop :=
  e.bid_side.is_bid_side = true ∧ e.ask_side.is_bid_side = false ∧
  SideWF e.bid_side ∧ SideWF e.ask_side ∧
  (bookIds e).Nodup ∧
  (∀ id ∈ bookIds e, id ∈ used) ∧
  (∀ id p sd, lookupFind e.order_lookup id = some (p, sd) ↔ RestsAt e id p sd)

theorem mem_idsOf {ls : List OrderBookLevel} {id : Nat} :
    id ∈ idsOf ls ↔ ∃ o, o ∈ ordersOf ls ∧ o.order_id = id := by
  simp [idsOf, List.mem_map]

theorem ordersOf_id_unique {ls : List OrderBookLevel} (hnd : (idsOf ls).Nodup) :
    ∀ o ∈ ordersOf ls, ∀ o' ∈ ordersOf ls, o.order_id = o'.order_id → o = o' :=
  fun o ho o' ho' h => List.inj_on_of_nodup_map hnd ho ho' h

theorem sideAssoc_not {ls : List OrderBookLevel} {id p : Nat} (h : id ∉ idsOf ls) :
    ¬ SideAssoc ls id p :=
  fun ⟨o, ho, hid, _⟩ => h (mem_idsOf.mpr ⟨o, ho, hid⟩)

theorem sideAssoc_trim {ls ls' : List OrderBookLevel} {id p : Nat}
    (hnd : (idsOf ls).Nodup) (ht : SideTrim ls ls')
    (hguard : id ∈ idsOf ls → id ∈ idsOf ls') :
    SideAssoc ls' id p ↔ SideAssoc ls id p := by
  constructor
  · rintro ⟨o', ho', hid, hp⟩
    obtain ⟨o, ho, hideq, hpeq, _, _⟩ := sideTrim_orders_weaken ht o' ho'
    exact ⟨o, ho, hideq ▸ hid, hpeq ▸ hp⟩
  · rintro ⟨o, ho, hid, hp⟩
    have hin' : id ∈ idsOf ls' := hguard (mem_idsOf.mpr ⟨o, ho, hid⟩)
    obtain ⟨o', ho', hid'⟩ := mem_idsOf.mp hin'
    obtain ⟨o'', ho'', hideq, hpeq, _, _⟩ := sideTrim_orders_weaken ht o' ho'
    have : o'' = o := ordersOf_id_unique hnd o'' ho'' o ho (by rw [← hideq, hid', hid])
    exact ⟨o', ho', hid', by rw [hpeq, this, hp]⟩

theorem insertLevel_ordersOf_perm (is_bid : Bool) (o : Order) :
    ∀ ls : List OrderBookLevel,
      (ordersOf (insertLevel is_bid o ls)).Perm (o :: ordersOf ls) := by
  intro ls
  induction ls with
  | nil => simp [insertLevel, OrderBookLevel.add_order, ordersOf]
  | cons l ls ih =>
    simp only [insertLevel]
    split_ifs with he hb
    · simp only [ordersOf_cons, OrderBookLevel.add_order]
      rw [List.append_assoc]
      exact List.perm_middle
    · simp only [ordersOf_cons, OrderBookLevel.add_order, List.nil_append]
      exact List.Perm.refl _
    · simp only [ordersOf_cons]
      exact (List.Perm.append_left l.orders ih).trans List.perm_middle

theorem removeOrderAtPrice_mem {id price : Nat} :
    ∀ {ls : List OrderBookLevel} {a : OrderBookLevel},
      a ∈ (OrderBookSide.removeOrderAtPrice id price ls).1 →
      ∃ b ∈ ls, a.price = b.price ∧ ∀ o ∈ a.orders, o ∈ b.orders := by
  intro ls
  induction ls with
  | nil => intro a ha; simp [OrderBookSide.removeOrderAtPrice] at ha
  | cons l ls ih =>
    intro a ha
    simp only [OrderBookSide.removeOrderAtPrice] at ha
    by_cases hl : l.price = price
    · rw [if_pos hl] at ha
      dsimp only [OrderBookLevel.remove_order] at ha
      split_ifs at ha with hfe
      · exact ⟨a, List.mem_cons_of_mem l ha, rfl, fun o ho => ho⟩
      · rcases List.mem_cons.mp ha with ha | ha
        · refine ⟨l, List.mem_cons_self l ls, by rw [ha], ?_⟩
          intro o ho
          rw [ha] at ho
          exact List.mem_of_mem_filter ho
        · exact ⟨a, List.mem_cons_of_mem l ha, rfl, fun o ho => ho⟩
    · rw [if_neg hl] at ha
      rcases List.mem_cons.mp ha with ha | ha
      · exact ⟨l, List.mem_cons_self l ls, by rw [ha], fun o ho => by rw [ha] at ho; exact ho⟩
      · obtain ⟨b, hb, h1, h2⟩ := ih ha
        exact ⟨b, List.mem_cons_of_mem l hb, h1, h2⟩

theorem removeOrderAtPrice_nonempty {id price : Nat} :
    ∀ {ls : List OrderBookLevel}, (∀ l ∈ ls, l.orders ≠ []) →
      ∀ a ∈ (OrderBookSide.removeOrderAtPrice id price ls).1, a.orders ≠ [] := by
  intro ls
  induction ls with
  | nil => intro _ a ha; simp [OrderBookSide.removeOrderAtPrice] at ha
  | cons l ls ih =>
    intro hne a ha
    simp only [OrderBookSide.removeOrderAtPrice] at ha
    by_cases hl : l.price = price
    · rw [if_pos hl] at ha
      dsimp only [OrderBookLevel.remove_order] at ha
      split_ifs at ha with hfe
      · exact hne a (List.mem_cons_of_mem l ha)
      · rcases List.mem_cons.mp ha with ha | ha
        · rw [ha]
          dsimp only
          intro hc
          apply hfe
          refine ⟨?_, by rw [hc]; rfl⟩
          have hall : ∀ o ∈ l.orders, ¬ o.order_id ≠ id := by
            intro o ho hne'
            have : o ∈ l.orders.filter (fun o => o.order_id ≠ id) :=
              List.mem_filter.mpr ⟨ho, by simpa using hne'⟩
            rw [hc] at this
            exact absurd this (List.not_mem_nil o)
          cases hos : l.orders with
          | nil => exact absurd hos (hne l (List.mem_cons_self l ls))
          | cons o rest =>
            have := hall o (by rw [hos]; exact List.mem_cons_self o rest)
            simp only [List.any_eq_true]
            exact ⟨o, by simp [hos], by simpa using this⟩
        · exact hne a (List.mem_cons_of_mem l ha)
    · rw [if_neg hl] at ha
      rcases List.mem_cons.mp ha with ha | ha
      · rw [ha]; exact hne l (List.mem_cons_self l ls)
      · exact ih (fun b hb => hne b (List.mem_cons_of_mem l hb)) a ha

theorem removeOrderAtPrice_sorted {is_bid : Bool} {id price : Nat} :
    ∀ {ls : List OrderBookLevel},
      ls.Pairwise (fun a b => priceBetter is_bid a.price b.price) →
      (OrderBookSide.removeOrderAtPrice id price ls).1.Pairwise
        (fun a b => priceBetter is_bid a.price b.price) := by
  intro ls
  induction ls with
  | nil => intro _; simp [OrderBookSide.removeOrderAtPrice]
  | cons l ls ih =>
    intro hs
    rw [List.pairwise_cons] at hs
    simp only [OrderBookSide.removeOrderAtPrice]
    by_cases hl : l.price = price
    · rw [if_pos hl]
      dsimp only [OrderBookLevel.remove_order]
      split_ifs with hfe
      · exact hs.2
      · rw [List.pairwise_cons]
        exact ⟨fun b hb => hs.1 b hb, hs.2⟩
    · rw [if_neg hl]
      rw [List.pairwise_cons]
      refine ⟨?_, ih hs.2⟩
      intro b hb
      obtain ⟨c, hc, hpc, _⟩ := removeOrderAtPrice_mem hb
      rw [hpc]
      exact hs.1 c hc
theorem mem_ordersOf {ls : List OrderBookLevel} {o : Order} :
    o ∈ ordersOf ls ↔ ∃ l ∈ ls, o ∈ l.orders := by
  simp only [ordersOf, List.mem_flatten, List.mem_map]
  constructor
  · rintro ⟨os, ⟨l, hl, rfl⟩, ho⟩
    exact ⟨l, hl, ho⟩
  · rintro ⟨l, hl, ho⟩
    exact ⟨l.orders, ⟨l, hl, rfl⟩, ho⟩

theorem removeOrderAtPrice_cons_ne {id price : Nat} {l : OrderBookLevel}
    {ls : List OrderBookLevel} (h : ¬ l.price = price) :
    OrderBookSide.removeOrderAtPrice id price (l :: ls) =
      (l :: (OrderBookSide.removeOrderAtPrice id price ls).1,
       (OrderBookSide.removeOrderAtPrice id price ls).2) := by
  simp only [OrderBookSide.removeOrderAtPrice, if_neg h]

theorem removeOrderAtPrice_cons_eq {id price : Nat} {l : OrderBookLevel}
    {ls : List OrderBookLevel} (h : l.price = price) :
    OrderBookSide.removeOrderAtPrice id price (l :: ls) =
      if (l.remove_order id).2 = true ∧ (l.remove_order id).1.orders.isEmpty = true
      then (ls, (l.remove_order id).2)
      else ((l.remove_order id).1 :: ls, (l.remove_order id).2) := by
  simp only [OrderBookSide.removeOrderAtPrice, if_pos h]

theorem removeOrderAtPrice_orders {id price : Nat} :
    ∀ {ls : List OrderBookLevel},
      (∀ l ∈ ls, ∀ o ∈ l.orders, o.price = l.price) →
      ls.Pairwise (fun a b => a.price ≠ b.price) →
      ordersOf (OrderBookSide.removeOrderAtPrice id price ls).1 =
        (ordersOf ls).filter (fun o => ¬(o.order_id = id ∧ o.price = price)) := by
  intro ls
  induction ls with
  | nil => intro _ _; simp [OrderBookSide.removeOrderAtPrice, ordersOf]
  | cons l ls ih =>
    intro hp hnd
    have hpl : ∀ o ∈ l.orders, o.price = l.price := hp l (List.mem_cons_self l ls)
    rw [List.pairwise_cons] at hnd
    by_cases hl : l.price = price
    · have fact1 : l.orders.filter (fun o => ¬(o.order_id = id ∧ o.price = price)) =
          l.orders.filter (fun o => o.order_id ≠ id) := by
        apply List.filter_congr
        intro o ho
        have : o.price = l.price := hpl o ho
        simp [this, hl]
      have fact2 : (ordersOf ls).filter
          (fun o => ¬(o.order_id = id ∧ o.price = price)) = ordersOf ls := by
        apply List.filter_eq_self.mpr
        intro o ho
        obtain ⟨b, hb, hob⟩ := mem_ordersOf.mp ho
        have h1 : o.price = b.price := hp b (List.mem_cons_of_mem l hb) o hob
        have hbp : l.price ≠ b.price := hnd.1 b hb
        simp only [decide_eq_true_eq]
        intro hc
        exact hbp (by rw [hl, ← hc.2, h1])
      rw [removeOrderAtPrice_cons_eq hl]
      split_ifs with hfe
      · show ordersOf ls = _
        rw [ordersOf_cons, List.filter_append, fact1, fact2]
        have hnil : l.orders.filter (fun o => o.order_id ≠ id) = [] :=
          List.isEmpty_iff.mp hfe.2
        rw [hnil]
        rfl
      · rw [ordersOf_cons]
        show (l.orders.filter fun o => o.order_id ≠ id) ++ ordersOf ls = _
        rw [ordersOf_cons, List.filter_append, fact1, fact2]
    · rw [removeOrderAtPrice_cons_ne hl]
      show ordersOf (l :: (OrderBookSide.removeOrderAtPrice id price ls).1) = _
      rw [ordersOf_cons, ih (fun b hb => hp b (List.mem_cons_of_mem l hb)) hnd.2,
        ordersOf_cons, List.filter_append]
      have hself : l.orders.filter (fun o => ¬(o.order_id = id ∧ o.price = price)) =
          l.orders := by
        apply List.filter_eq_self.mpr
        intro o ho
        have h1 : o.price = l.price := hpl o ho
        simp only [decide_eq_true_eq]
        intro hc
        exact hl (by rw [← h1, hc.2])
      rw [hself]

theorem removeOrderAtPrice_found {id price : Nat} :
    ∀ {ls : List OrderBookLevel},
      (∀ l ∈ ls, ∀ o ∈ l.orders, o.price = l.price) →
      ls.Pairwise (fun a b => a.price ≠ b.price) →
      ((OrderBookSide.removeOrderAtPrice id price ls).2 = true ↔
        ∃ o, o ∈ ordersOf ls ∧ o.order_id = id ∧ o.price = price) := by
  intro ls
  induction ls with
  | nil =>
    intro _ _
    simp [OrderBookSide.removeOrderAtPrice, ordersOf]
  | cons l ls ih =>
    intro hp hnd
    have hpl : ∀ o ∈ l.orders, o.price = l.price := hp l (List.mem_cons_self l ls)
    rw [List.pairwise_cons] at hnd
    by_cases hl : l.price = price
    · have hmain : (l.orders.any fun o => o.order_id = id) = true ↔
          ∃ o, o ∈ ordersOf (l :: ls) ∧ o.order_id = id ∧ o.price = price := by
        simp only [List.any_eq_true, decide_eq_true_eq, ordersOf_cons, List.mem_append]
        constructor
        · rintro ⟨o, ho, hid⟩
          exact ⟨o, Or.inl ho, hid, by rw [hpl o ho, hl]⟩
        · rintro ⟨o, ho | ho, hid, hpr⟩
          · exact ⟨o, ho, hid⟩
          · obtain ⟨b, hb, hob⟩ := mem_ordersOf.mp ho
            have h1 : o.price = b.price := hp b (List.mem_cons_of_mem l hb) o hob
            exact absurd (by rw [hl, ← hpr, h1]) (hnd.1 b hb)
      rw [removeOrderAtPrice_cons_eq hl]
      split_ifs with hfe
      · exact hmain
      · exact hmain
    · rw [removeOrderAtPrice_cons_ne hl]
      show (OrderBookSide.removeOrderAtPrice id price ls).2 = true ↔ _
      rw [ih (fun b hb => hp b (List.mem_cons_of_mem l hb)) hnd.2]
      simp only [ordersOf_cons, List.mem_append]
      constructor
      · rintro ⟨o, ho, hid, hpr⟩
        exact ⟨o, Or.inr ho, hid, hpr⟩
      · rintro ⟨o, ho | ho, hid, hpr⟩
        · exact absurd (by rw [← hpr, hpl o ho]) hl
        · exact ⟨o, ho, hid, hpr⟩
theorem sorted_price_ne {is_bid : Bool} {ls : List OrderBookLevel}
    (hs : ls.Pairwise (fun a b => priceBetter is_bid a.price b.price)) :
    ls.Pairwise (fun a b => a.price ≠ b.price) := by
  refine hs.imp ?_
  intro a b h
  unfold priceBetter at h
  cases is_bid <;> simp at h <;> omega

theorem engineInv4_cancel (used : List Nat) (e : MatchingEngine) (id : Nat)
    (h : EngineInv4 used e) : EngineInv4 used (e.cancel_order id).1 := by
  obtain ⟨hbf, haf, hwb, hwa, hnd, hused, hiff⟩ := h
  have hndb : (idsOf e.bid_side.levels).Nodup := (List.nodup_append.mp hnd).1
  have hnda : (idsOf e.ask_side.levels).Nodup := (List.nodup_append.mp hnd).2.1
  have hdisj : (idsOf e.bid_side.levels).Disjoint (idsOf e.ask_side.levels) :=
    (List.nodup_append.mp hnd).2.2
  unfold MatchingEngine.cancel_order
  cases hf : lookupFind e.order_lookup id with
  | none => exact ⟨hbf, haf, hwb, hwa, hnd, hused, hiff⟩
  | some pr =>
    obtain ⟨p, sd⟩ := pr
    have hrest : RestsAt e id p sd := (hiff id p sd).mp hf
    dsimp only
    cases sd with
    | BUY =>
      rcases hrest with ⟨-, hassoc⟩ | ⟨hc, -⟩
      swap
      · exact OrderSide.noConfusion hc
      rw [if_pos rfl]
      have hfound : (e.bid_side.remove_order id p).2 = true :=
        (removeOrderAtPrice_found hwb.2.2 (sorted_price_ne hwb.2.1)).mpr hassoc
      rw [if_pos hfound]
      show EngineInv4 used { e with
        bid_side := (e.bid_side.remove_order id p).1,
        order_lookup := lookupErase e.order_lookup id }
      have hord : ordersOf (OrderBookSide.removeOrderAtPrice id p e.bid_side.levels).1 =
          (ordersOf e.bid_side.levels).filter
            (fun o => ¬(o.order_id = id ∧ o.price = p)) :=
        removeOrderAtPrice_orders hwb.2.2 (sorted_price_ne hwb.2.1)
      have hsubids : List.Sublist (idsOf (OrderBookSide.removeOrderAtPrice id p
          e.bid_side.levels).1) (idsOf e.bid_side.levels) := by
        unfold idsOf
        rw [hord]
        exact (List.filter_sublist _).map _
      refine ⟨hbf, haf,
        ⟨removeOrderAtPrice_nonempty hwb.1, removeOrderAtPrice_sorted hwb.2.1, ?_⟩,
        hwa, ?_, ?_, ?_⟩
      · intro a ha o ho
        obtain ⟨b, hb, hab, himp⟩ := removeOrderAtPrice_mem ha
        rw [hab]
        exact hwb.2.2 b hb o (himp o ho)
      · exact hnd.sublist (hsubids.append (List.Sublist.refl _))
      · intro id' hid'
        exact hused id' ((hsubids.append (List.Sublist.refl _)).mem hid')
      · intro id' p' sd'
        show lookupFind (lookupErase e.order_lookup id) id' = some (p', sd') ↔ _
        rw [lookupFind_erase]
        by_cases hid : id' = id
        · rw [if_pos hid]
          constructor
          · intro hc
            exact Option.noConfusion hc
          · rintro (⟨-, o', ho', hido', hpo'⟩ | ⟨-, o', ho', hido', hpo'⟩)
            · have ho2 : o' ∈ ordersOf (OrderBookSide.removeOrderAtPrice id p
                  e.bid_side.levels).1 := ho'
              rw [hord] at ho2
              obtain ⟨hmem, hpred⟩ := List.mem_filter.mp ho2
              obtain ⟨o, ho, hido, hpo⟩ := hassoc
              have heq : o' = o :=
                ordersOf_id_unique hndb o' hmem o ho (by rw [hido', hid, hido])
              simp only [decide_eq_true_eq] at hpred
              exact absurd ⟨by rw [hido', hid], by rw [heq, hpo]⟩ hpred
            · obtain ⟨o, ho, hido, -⟩ := hassoc
              have ha' : id ∈ idsOf e.ask_side.levels :=
                hid ▸ mem_idsOf.mpr ⟨o', ho', hido'⟩
              exact absurd ha' (hdisj (mem_idsOf.mpr ⟨o, ho, hido⟩))
        · rw [if_neg hid]
          refine (hiff id' p' sd').trans (or_congr (and_congr_right fun _ => ?_) Iff.rfl)
          constructor
          · rintro ⟨o, ho, hido, hpo⟩
            refine ⟨o, ?_, hido, hpo⟩
            show o ∈ ordersOf (OrderBookSide.removeOrderAtPrice id p e.bid_side.levels).1
            rw [hord]
            refine List.mem_filter.mpr ⟨ho, ?_⟩
            simp only [decide_eq_true_eq]
            intro hc
            exact hid (by rw [← hido, hc.1])
          · rintro ⟨o, ho, hido, hpo⟩
            have ho2 : o ∈ ordersOf (OrderBookSide.removeOrderAtPrice id p
                e.bid_side.levels).1 := ho
            rw [hord] at ho2
            exact ⟨o, (List.mem_filter.mp ho2).1, hido, hpo⟩
    | SELL =>
      rcases hrest with ⟨hc, -⟩ | ⟨-, hassoc⟩
      · exact OrderSide.noConfusion hc
      rw [if_neg (fun hc => OrderSide.noConfusion hc)]
      have hfound : (e.ask_side.remove_order id p).2 = true :=
        (removeOrderAtPrice_found hwa.2.2 (sorted_price_ne hwa.2.1)).mpr hassoc
      rw [if_pos hfound]
      show EngineInv4 used { e with
        ask_side := (e.ask_side.remove_order id p).1,
        order_lookup := lookupErase e.order_lookup id }
      have hord : ordersOf (OrderBookSide.removeOrderAtPrice id p e.ask_side.levels).1 =
          (ordersOf e.ask_side.levels).filter
            (fun o => ¬(o.order_id = id ∧ o.price = p)) :=
        removeOrderAtPrice_orders hwa.2.2 (sorted_price_ne hwa.2.1)
      have hsubids : List.Sublist (idsOf (OrderBookSide.removeOrderAtPrice id p
          e.ask_side.levels).1) (idsOf e.ask_side.levels) := by
        unfold idsOf
        rw [hord]
        exact (List.filter_sublist _).map _
      refine ⟨hbf, haf, hwb,
        ⟨removeOrderAtPrice_nonempty hwa.1, removeOrderAtPrice_sorted hwa.2.1, ?_⟩,
        ?_, ?_, ?_⟩
      · intro a ha o ho
        obtain ⟨b, hb, hab, himp⟩ := removeOrderAtPrice_mem ha
        rw [hab]
        exact hwa.2.2 b hb o (himp o ho)
      · exact hnd.sublist ((List.Sublist.refl _).append hsubids)
      · intro id' hid'
        exact hused id' (((List.Sublist.refl _).append hsubids).mem hid')
      · intro id' p' sd'
        show lookupFind (lookupErase e.order_lookup id) id' = some (p', sd') ↔ _
        rw [lookupFind_erase]
        by_cases hid : id' = id
        · rw [if_pos hid]
          constructor
          · intro hc
            exact Option.noConfusion hc
          · rintro (⟨-, o', ho', hido', hpo'⟩ | ⟨-, o', ho', hido', hpo'⟩)
            · obtain ⟨o, ho, hido, -⟩ := hassoc
              have hb' : id ∈ idsOf e.bid_side.levels :=
                hid ▸ mem_idsOf.mpr ⟨o', ho', hido'⟩
              exact absurd (mem_idsOf.mpr ⟨o, ho, hido⟩) (fun hm => hdisj hb' hm)
            · have ho2 : o' ∈ ordersOf (OrderBookSide.removeOrderAtPrice id p
                  e.ask_side.levels).1 := ho'
              rw [hord] at ho2
              obtain ⟨hmem, hpred⟩ := List.mem_filter.mp ho2
              obtain ⟨o, ho, hido, hpo⟩ := hassoc
              have heq : o' = o :=
                ordersOf_id_unique hnda o' hmem o ho (by rw [hido', hid, hido])
              simp only [decide_eq_true_eq] at hpred
              exact absurd ⟨by rw [hido', hid], by rw [heq, hpo]⟩ hpred
        · rw [if_neg hid]
          refine (hiff id' p' sd').trans (or_congr Iff.rfl (and_congr_right fun _ => ?_))
          constructor
          · rintro ⟨o, ho, hido, hpo⟩
            refine ⟨o, ?_, hido, hpo⟩
            show o ∈ ordersOf (OrderBookSide.removeOrderAtPrice id p e.ask_side.levels).1
            rw [hord]
            refine List.mem_filter.mpr ⟨ho, ?_⟩
            simp only [decide_eq_true_eq]
            intro hc
            exact hid (by rw [← hido, hc.1])
          · rintro ⟨o, ho, hido, hpo⟩
            have ho2 : o ∈ ordersOf (OrderBookSide.removeOrderAtPrice id p
                e.ask_side.levels).1 := ho
            rw [hord] at ho2
            exact ⟨o, (List.mem_filter.mp ho2).1, hido, hpo⟩
theorem engineInv4_submit (used : List Nat) (e : MatchingEngine) (o : Order)
    (h : EngineInv4 used e) (hfresh : o.order_id ∉ used) :
    EngineInv4 (o.order_id :: used) (e.add_order o) := by
  obtain ⟨hbf, haf, hwb, hwa, hnd, hused, hiff⟩ := h
  have hndb : (idsOf e.bid_side.levels).Nodup := (List.nodup_append.mp hnd).1
  have hnda : (idsOf e.ask_side.levels).Nodup := (List.nodup_append.mp hnd).2.1
  have hdisj : (idsOf e.bid_side.levels).Disjoint (idsOf e.ask_side.levels) :=
    (List.nodup_append.mp hnd).2.2
  have hfb : o.order_id ∉ idsOf e.bid_side.levels :=
    fun hc => hfresh (hused o.order_id (List.mem_append.mpr (Or.inl hc)))
  have hfa : o.order_id ∉ idsOf e.ask_side.levels :=
    fun hc => hfresh (hused o.order_id (List.mem_append.mpr (Or.inr hc)))
  unfold MatchingEngine.add_order
  by_cases hty : o.otype = OrderType.MARKET
  · rw [if_pos hty]
    unfold process_market_order
    by_cases hside : o.side = OrderSide.BUY
    · rw [if_pos hside]
      obtain ⟨ht, hne', hlk⟩ :=
        matchGo_main (sideOrderCount e.ask_side.levels + o.quantity + 1)
          o e.ask_side.levels e.order_lookup e.trade_events hwa.1 hnda
      show EngineInv4 (o.order_id :: used) { e with
        ask_side := { e.ask_side with levels :=
          (matchGo (sideOrderCount e.ask_side.levels + o.quantity + 1) o
            e.ask_side.levels e.order_lookup e.trade_events).levels },
        order_lookup := (matchGo (sideOrderCount e.ask_side.levels + o.quantity + 1) o
          e.ask_side.levels e.order_lookup e.trade_events).lookup,
        trade_events := (matchGo (sideOrderCount e.ask_side.levels + o.quantity + 1) o
          e.ask_side.levels e.order_lookup e.trade_events).trades }
      refine ⟨hbf, haf, hwb, sideWF_of_trim hwa ht hne', ?_, ?_, ?_⟩
      · exact hnd.sublist ((List.Sublist.refl _).append (sideTrim_ids_sublist ht))
      · intro i hi
        exact List.mem_cons_of_mem _ (hused i
          (((List.Sublist.refl _).append (sideTrim_ids_sublist ht)).mem hi))
      · intro id p sd
        show lookupFind (matchGo (sideOrderCount e.ask_side.levels + o.quantity + 1) o
          e.ask_side.levels e.order_lookup e.trade_events).lookup id = some (p, sd) ↔ _
        rw [hlk id]
        by_cases hg : id ∈ idsOf e.ask_side.levels ∧
            id ∉ idsOf (matchGo (sideOrderCount e.ask_side.levels + o.quantity + 1) o
              e.ask_side.levels e.order_lookup e.trade_events).levels
        · rw [if_pos hg]
          constructor
          · intro hc
            exact Option.noConfusion hc
          · rintro (⟨-, hsa⟩ | ⟨-, hsa⟩)
            · have hsa' : SideAssoc e.bid_side.levels id p := hsa
              obtain ⟨a, ha, hida, -⟩ := hsa'
              exact absurd hg.1 (hdisj (mem_idsOf.mpr ⟨a, ha, hida⟩))
            · exact absurd hsa (sideAssoc_not hg.2)
        · rw [if_neg hg]
          exact (hiff id p sd).trans (or_congr Iff.rfl (and_congr_right fun _ =>
            (sideAssoc_trim hnda ht (fun hin =>
              Decidable.by_contra fun hnin => hg ⟨hin, hnin⟩)).symm))
    · rw [if_neg hside]
      obtain ⟨ht, hne', hlk⟩ :=
        matchGo_main (sideOrderCount e.bid_side.levels + o.quantity + 1)
          o e.bid_side.levels e.order_lookup e.trade_events hwb.1 hndb
      show EngineInv4 (o.order_id :: used) { e with
        bid_side := { e.bid_side with levels :=
          (matchGo (sideOrderCount e.bid_side.levels + o.quantity + 1) o
            e.bid_side.levels e.order_lookup e.trade_events).levels },
        order_lookup := (matchGo (sideOrderCount e.bid_side.levels + o.quantity + 1) o
          e.bid_side.levels e.order_lookup e.trade_events).lookup,
        trade_events := (matchGo (sideOrderCount e.bid_side.levels + o.quantity + 1) o
          e.bid_side.levels e.order_lookup e.trade_events).trades }
      refine ⟨hbf, haf, sideWF_of_trim hwb ht hne', hwa, ?_, ?_, ?_⟩
      · exact hnd.sublist ((sideTrim_ids_sublist ht).append (List.Sublist.refl _))
      · intro i hi
        exact List.mem_cons_of_mem _ (hused i
          (((sideTrim_ids_sublist ht).append (List.Sublist.refl _)).mem hi))
      · intro id p sd
        show lookupFind (matchGo (sideOrderCount e.bid_side.levels + o.quantity + 1) o
          e.bid_side.levels e.order_lookup e.trade_events).lookup id = some (p, sd) ↔ _
        rw [hlk id]
        by_cases hg : id ∈ idsOf e.bid_side.levels ∧
            id ∉ idsOf (matchGo (sideOrderCount e.bid_side.levels + o.quantity + 1) o
              e.bid_side.levels e.order_lookup e.trade_events).levels
        · rw [if_pos hg]
          constructor
          · intro hc
            exact Option.noConfusion hc
          · rintro (⟨-, hsa⟩ | ⟨-, hsa⟩)
            · exact absurd hsa (sideAssoc_not hg.2)
            · have hsa' : SideAssoc e.ask_side.levels id p := hsa
              obtain ⟨a, ha, hida, -⟩ := hsa'
              exact absurd (mem_idsOf.mpr ⟨a, ha, hida⟩) (hdisj hg.1)
        · rw [if_neg hg]
          exact (hiff id p sd).trans (or_congr (and_congr_right fun _ =>
            (sideAssoc_trim hndb ht (fun hin =>
              Decidable.by_contra fun hnin => hg ⟨hin, hnin⟩)).symm) Iff.rfl)
  · rw [if_neg hty]
    unfold process_limit_order
    by_cases hside : o.side = OrderSide.BUY
    · rw [if_pos hside]
      obtain ⟨ht, hne', hlk⟩ :=
        matchGo_main (sideOrderCount e.ask_side.levels + o.quantity + 1)
          o e.ask_side.levels e.order_lookup e.trade_events hwa.1 hnda
      obtain ⟨f1, f2, f3, f4⟩ :=
        matchGo_incoming_fields (sideOrderCount e.ask_side.levels + o.quantity + 1)
          o e.ask_side.levels e.order_lookup e.trade_events
      by_cases hq : 0 < (match_order_against_side o e.ask_side.levels e.order_lookup
          e.trade_events).incoming.quantity
      · rw [if_pos hq]
        show EngineInv4 (o.order_id :: used) { e with
          ask_side := { e.ask_side with levels :=
            (matchGo (sideOrderCount e.ask_side.levels + o.quantity + 1) o
              e.ask_side.levels e.order_lookup e.trade_events).levels },
          bid_side := e.bid_side.add_order
            (matchGo (sideOrderCount e.ask_side.levels + o.quantity + 1) o
              e.ask_side.levels e.order_lookup e.trade_events).incoming,
          order_lookup := lookupInsert
            (matchGo (sideOrderCount e.ask_side.levels + o.quantity + 1) o
              e.ask_side.levels e.order_lookup e.trade_events).lookup
            (matchGo (sideOrderCount e.ask_side.levels + o.quantity + 1) o
              e.ask_side.levels e.order_lookup e.trade_events).incoming.order_id
            (matchGo (sideOrderCount e.ask_side.levels + o.quantity + 1) o
              e.ask_side.levels e.order_lookup e.trade_events).incoming.price
            (matchGo (sideOrderCount e.ask_side.levels + o.quantity + 1) o
              e.ask_side.levels e.order_lookup e.trade_events).incoming.side,
          trade_events := (matchGo (sideOrderCount e.ask_side.levels + o.quantity + 1) o
            e.ask_side.levels e.order_lookup e.trade_events).trades }
        have hperm : (ordersOf (insertLevel e.bid_side.is_bid_side
            (matchGo (sideOrderCount e.ask_side.levels + o.quantity + 1) o
              e.ask_side.levels e.order_lookup e.trade_events).incoming
            e.bid_side.levels)).Perm
            ((matchGo (sideOrderCount e.ask_side.levels + o.quantity + 1) o
              e.ask_side.levels e.order_lookup e.trade_events).incoming ::
              ordersOf e.bid_side.levels) :=
          insertLevel_ordersOf_perm _ _ _
        have hpermids : (idsOf (insertLevel e.bid_side.is_bid_side
            (matchGo (sideOrderCount e.ask_side.levels + o.quantity + 1) o
              e.ask_side.levels e.order_lookup e.trade_events).incoming
            e.bid_side.levels)).Perm (o.order_id :: idsOf e.bid_side.levels) := by
          have := hperm.map Order.order_id
          rw [List.map_cons, f1] at this
          exact this
        refine ⟨hbf, haf, sideWF_add_order hwb _, sideWF_of_trim hwa ht hne', ?_, ?_, ?_⟩
        · refine ((hpermids.append (List.Perm.refl _)).symm).nodup ?_
          show (o.order_id :: (idsOf e.bid_side.levels ++ _)).Nodup
          rw [List.nodup_cons]
          refine ⟨?_, hnd.sublist ((List.Sublist.refl _).append (sideTrim_ids_sublist ht))⟩
          intro hc
          rcases List.mem_append.mp hc with hc | hc
          · exact hfb hc
          · exact hfa ((sideTrim_ids_sublist ht).mem hc)
        · intro i hi
          have hi' : i ∈ (o.order_id :: idsOf e.bid_side.levels) ++
              idsOf (matchGo (sideOrderCount e.ask_side.levels + o.quantity + 1) o
                e.ask_side.levels e.order_lookup e.trade_events).levels :=
            (hpermids.append (List.Perm.refl _)).subset hi
          rcases List.mem_append.mp hi' with hc | hc
          · rcases List.mem_cons.mp hc with hc | hc
            · exact hc ▸ List.mem_cons_self _ _
            · exact List.mem_cons_of_mem _ (hused i (List.mem_append.mpr (Or.inl hc)))
          · exact List.mem_cons_of_mem _ (hused i (List.mem_append.mpr (Or.inr
              ((sideTrim_ids_sublist ht).mem hc))))
        · intro id p sd
          show lookupFind (lookupInsert
            (matchGo (sideOrderCount e.ask_side.levels + o.quantity + 1) o
              e.ask_side.levels e.order_lookup e.trade_events).lookup
            (matchGo (sideOrderCount e.ask_side.levels + o.quantity + 1) o
              e.ask_side.levels e.order_lookup e.trade_events).incoming.order_id
            (matchGo (sideOrderCount e.ask_side.levels + o.quantity + 1) o
              e.ask_side.levels e.order_lookup e.trade_events).incoming.price
            (matchGo (sideOrderCount e.ask_side.levels + o.quantity + 1) o
              e.ask_side.levels e.order_lookup e.trade_events).incoming.side) id =
              some (p, sd) ↔ _
          rw [f1, f2, f3]
          by_cases hio : id = o.order_id
          · subst hio
            rw [lookupFind_insert_self]
            constructor
            · intro hc
              have hpair : (o.price, o.side) = (p, sd) := Option.some.inj hc
              have hp1 : o.price = p := congrArg Prod.fst hpair
              have hs1 : o.side = sd := congrArg Prod.snd hpair
              refine Or.inl ⟨by rw [← hs1, hside], ?_⟩
              exact ⟨(matchGo (sideOrderCount e.ask_side.levels + o.quantity + 1) o
                  e.ask_side.levels e.order_lookup e.trade_events).incoming,
                hperm.mem_iff.mpr (List.mem_cons_self _ _), f1, by rw [f3, hp1]⟩
            · rintro (⟨hsd, hsa⟩ | ⟨-, hsa⟩)
              · obtain ⟨o', ho', hid', hp'⟩ := hsa
                have ho2 : o' ∈ ordersOf (insertLevel e.bid_side.is_bid_side
                    (matchGo (sideOrderCount e.ask_side.levels + o.quantity + 1) o
                      e.ask_side.levels e.order_lookup e.trade_events).incoming
                    e.bid_side.levels) := ho'
                rcases List.mem_cons.mp (hperm.mem_iff.mp ho2) with he | he
                · rw [hsd, hside, ← hp', he, f3]
                · exact absurd (mem_idsOf.mpr ⟨o', he, hid'⟩) hfb
              · obtain ⟨o', ho', hid', -⟩ := hsa
                have ho2 : o' ∈ ordersOf (matchGo (sideOrderCount e.ask_side.levels +
                    o.quantity + 1) o e.ask_side.levels e.order_lookup
                    e.trade_events).levels := ho'
                exact absurd ((sideTrim_ids_sublist ht).mem
                  (mem_idsOf.mpr ⟨o', ho2, hid'⟩)) hfa
          · rw [lookupFind_insert_other _ _ _ _ _ hio, hlk id]
            by_cases hg : id ∈ idsOf e.ask_side.levels ∧
                id ∉ idsOf (matchGo (sideOrderCount e.ask_side.levels + o.quantity + 1) o
                  e.ask_side.levels e.order_lookup e.trade_events).levels
            · rw [if_pos hg]
              constructor
              · intro hc
                exact Option.noConfusion hc
              · rintro (⟨-, hsa⟩ | ⟨-, hsa⟩)
                · obtain ⟨o', ho', hid', -⟩ := hsa
                  have ho2 : o' ∈ ordersOf (insertLevel e.bid_side.is_bid_side
                      (matchGo (sideOrderCount e.ask_side.levels + o.quantity + 1) o
                        e.ask_side.levels e.order_lookup e.trade_events).incoming
                      e.bid_side.levels) := ho'
                  rcases List.mem_cons.mp (hperm.mem_iff.mp ho2) with he | he
                  · exact (hio (by rw [← hid', he, f1])).elim
                  · exact absurd hg.1 (hdisj (mem_idsOf.mpr ⟨o', he, hid'⟩))
                · exact absurd hsa (sideAssoc_not hg.2)
            · rw [if_neg hg]
              refine (hiff id p sd).trans (or_congr (and_congr_right fun _ => ?_)
                (and_congr_right fun _ => (sideAssoc_trim hnda ht (fun hin =>
                  Decidable.by_contra fun hnin => hg ⟨hin, hnin⟩)).symm))
              constructor
              · rintro ⟨o', ho', hid', hp'⟩
                exact ⟨o', hperm.mem_iff.mpr (List.mem_cons_of_mem _ ho'), hid', hp'⟩
              · rintro ⟨o', ho', hid', hp'⟩
                have ho2 : o' ∈ ordersOf (insertLevel e.bid_side.is_bid_side
                    (matchGo (sideOrderCount e.ask_side.levels + o.quantity + 1) o
                      e.ask_side.levels e.order_lookup e.trade_events).incoming
                    e.bid_side.levels) := ho'
                rcases List.mem_cons.mp (hperm.mem_iff.mp ho2) with he | he
                · exact absurd (by rw [← hid', he, f1]) hio
                · exact ⟨o', he, hid', hp'⟩
      · rw [if_neg hq]
        show EngineInv4 (o.order_id :: used) { e with
          ask_side := { e.ask_side with levels :=
            (matchGo (sideOrderCount e.ask_side.levels + o.quantity + 1) o
              e.ask_side.levels e.order_lookup e.trade_events).levels },
          order_lookup := (matchGo (sideOrderCount e.ask_side.levels + o.quantity + 1) o
            e.ask_side.levels e.order_lookup e.trade_events).lookup,
          trade_events := (matchGo (sideOrderCount e.ask_side.levels + o.quantity + 1) o
            e.ask_side.levels e.order_lookup e.trade_events).trades }
        refine ⟨hbf, haf, hwb, sideWF_of_trim hwa ht hne', ?_, ?_, ?_⟩
        · exact hnd.sublist ((List.Sublist.refl _).append (sideTrim_ids_sublist ht))
        · intro i hi
          exact List.mem_cons_of_mem _ (hused i
            (((List.Sublist.refl _).append (sideTrim_ids_sublist ht)).mem hi))
        · intro id p sd
          show lookupFind (matchGo (sideOrderCount e.ask_side.levels + o.quantity + 1) o
            e.ask_side.levels e.order_lookup e.trade_events).lookup id = some (p, sd) ↔ _
          rw [hlk id]
          by_cases hg : id ∈ idsOf e.ask_side.levels ∧
              id ∉ idsOf (matchGo (sideOrderCount e.ask_side.levels + o.quantity + 1) o
                e.ask_side.levels e.order_lookup e.trade_events).levels
          · rw [if_pos hg]
            constructor
            · intro hc
              exact Option.noConfusion hc
            · rintro (⟨-, hsa⟩ | ⟨-, hsa⟩)
              · have hsa' : SideAssoc e.bid_side.levels id p := hsa
                obtain ⟨a, ha, hida, -⟩ := hsa'
                exact absurd hg.1 (hdisj (mem_idsOf.mpr ⟨a, ha, hida⟩))
              · exact absurd hsa (sideAssoc_not hg.2)
          · rw [if_neg hg]
            exact (hiff id p sd).trans (or_congr Iff.rfl (and_congr_right fun _ =>
              (sideAssoc_trim hnda ht (fun hin =>
                Decidable.by_contra fun hnin => hg ⟨hin, hnin⟩)).symm))
    · rw [if_neg hside]
      obtain ⟨ht, hne', hlk⟩ :=
        matchGo_main (sideOrderCount e.bid_side.levels + o.quantity + 1)
          o e.bid_side.levels e.order_lookup e.trade_events hwb.1 hndb
      obtain ⟨f1, f2, f3, f4⟩ :=
        matchGo_incoming_fields (sideOrderCount e.bid_side.levels + o.quantity + 1)
          o e.bid_side.levels e.order_lookup e.trade_events
      have hsell : o.side = OrderSide.SELL := by
        cases hs2 : o.side with
        | BUY => exact absurd hs2 hside
        | SELL => rfl
      by_cases hq : 0 < (match_order_against_side o e.bid_side.levels e.order_lookup
          e.trade_events).incoming.quantity
      · rw [if_pos hq]
        show EngineInv4 (o.order_id :: used) { e with
          bid_side := { e.bid_side with levels :=
            (matchGo (sideOrderCount e.bid_side.levels + o.quantity + 1) o
              e.bid_side.levels e.order_lookup e.trade_events).levels },
          ask_side := e.ask_side.add_order
            (matchGo (sideOrderCount e.bid_side.levels + o.quantity + 1) o
              e.bid_side.levels e.order_lookup e.trade_events).incoming,
          order_lookup := lookupInsert
            (matchGo (sideOrderCount e.bid_side.levels + o.quantity + 1) o
              e.bid_side.levels e.order_lookup e.trade_events).lookup
            (matchGo (sideOrderCount e.bid_side.levels + o.quantity + 1) o
              e.bid_side.levels e.order_lookup e.trade_events).incoming.order_id
            (matchGo (sideOrderCount e.bid_side.levels + o.quantity + 1) o
              e.bid_side.levels e.order_lookup e.trade_events).incoming.price
            (matchGo (sideOrderCount e.bid_side.levels + o.quantity + 1) o
              e.bid_side.levels e.order_lookup e.trade_events).incoming.side,
          trade_events := (matchGo (sideOrderCount e.bid_side.levels + o.quantity + 1) o
            e.bid_side.levels e.order_lookup e.trade_events).trades }
        have hperm : (ordersOf (insertLevel e.ask_side.is_bid_side
            (matchGo (sideOrderCount e.bid_side.levels + o.quantity + 1) o
              e.bid_side.levels e.order_lookup e.trade_events).incoming
            e.ask_side.levels)).Perm
            ((matchGo (sideOrderCount e.bid_side.levels + o.quantity + 1) o
              e.bid_side.levels e.order_lookup e.trade_events).incoming ::
              ordersOf e.ask_side.levels) :=
          insertLevel_ordersOf_perm _ _ _
        have hpermids : (idsOf (insertLevel e.ask_side.is_bid_side
            (matchGo (sideOrderCount e.bid_side.levels + o.quantity + 1) o
              e.bid_side.levels e.order_lookup e.trade_events).incoming
            e.ask_side.levels)).Perm (o.order_id :: idsOf e.ask_side.levels) := by
          have := hperm.map Order.order_id
          rw [List.map_cons, f1] at this
          exact this
        refine ⟨hbf, haf, sideWF_of_trim hwb ht hne', sideWF_add_order hwa _, ?_, ?_, ?_⟩
        · refine (((List.Perm.refl _).append hpermids).trans List.perm_middle).symm.nodup ?_
          rw [List.nodup_cons]
          refine ⟨?_, hnd.sublist ((sideTrim_ids_sublist ht).append (List.Sublist.refl _))⟩
          intro hc
          rcases List.mem_append.mp hc with hc | hc
          · exact hfb ((sideTrim_ids_sublist ht).mem hc)
          · exact hfa hc
        · intro i hi
          have hi' : i ∈ o.order_id ::
              (idsOf (matchGo (sideOrderCount e.bid_side.levels + o.quantity + 1) o
                e.bid_side.levels e.order_lookup e.trade_events).levels ++
                idsOf e.ask_side.levels) :=
            (((List.Perm.refl _).append hpermids).trans List.perm_middle).subset hi
          rcases List.mem_cons.mp hi' with hc | hc
          · exact hc ▸ List.mem_cons_self _ _
          · rcases List.mem_append.mp hc with hc | hc
            · exact List.mem_cons_of_mem _ (hused i (List.mem_append.mpr (Or.inl
                ((sideTrim_ids_sublist ht).mem hc))))
            · exact List.mem_cons_of_mem _ (hused i (List.mem_append.mpr (Or.inr hc)))
        · intro id p sd
          show lookupFind (lookupInsert
            (matchGo (sideOrderCount e.bid_side.levels + o.quantity + 1) o
              e.bid_side.levels e.order_lookup e.trade_events).lookup
            (matchGo (sideOrderCount e.bid_side.levels + o.quantity + 1) o
              e.bid_side.levels e.order_lookup e.trade_events).incoming.order_id
            (matchGo (sideOrderCount e.bid_side.levels + o.quantity + 1) o
              e.bid_side.levels e.order_lookup e.trade_events).incoming.price
            (matchGo (sideOrderCount e.bid_side.levels + o.quantity + 1) o
              e.bid_side.levels e.order_lookup e.trade_events).incoming.side) id =
              some (p, sd) ↔ _
          rw [f1, f2, f3]
          by_cases hio : id = o.order_id
          · subst hio
            rw [lookupFind_insert_self]
            constructor
            · intro hc
              have hpair : (o.price, o.side) = (p, sd) := Option.some.inj hc
              have hp1 : o.price = p := congrArg Prod.fst hpair
              have hs1 : o.side = sd := congrArg Prod.snd hpair
              refine Or.inr ⟨by rw [← hs1, hsell], ?_⟩
              exact ⟨(matchGo (sideOrderCount e.bid_side.levels + o.quantity + 1) o
                  e.bid_side.levels e.order_lookup e.trade_events).incoming,
                hperm.mem_iff.mpr (List.mem_cons_self _ _), f1, by rw [f3, hp1]⟩
            · rintro (⟨-, hsa⟩ | ⟨hsd, hsa⟩)
              · obtain ⟨o', ho', hid', -⟩ := hsa
                have ho2 : o' ∈ ordersOf (matchGo (sideOrderCount e.bid_side.levels +
                    o.quantity + 1) o e.bid_side.levels e.order_lookup
                    e.trade_events).levels := ho'
                exact absurd ((sideTrim_ids_sublist ht).mem
                  (mem_idsOf.mpr ⟨o', ho2, hid'⟩)) hfb
              · obtain ⟨o', ho', hid', hp'⟩ := hsa
                have ho2 : o' ∈ ordersOf (insertLevel e.ask_side.is_bid_side
                    (matchGo (sideOrderCount e.bid_side.levels + o.quantity + 1) o
                      e.bid_side.levels e.order_lookup e.trade_events).incoming
                    e.ask_side.levels) := ho'
                rcases List.mem_cons.mp (hperm.mem_iff.mp ho2) with he | he
                · rw [hsd, hsell, ← hp', he, f3]
                · exact absurd (mem_idsOf.mpr ⟨o', he, hid'⟩) hfa
          · rw [lookupFind_insert_other _ _ _ _ _ hio, hlk id]
            by_cases hg : id ∈ idsOf e.bid_side.levels ∧
                id ∉ idsOf (matchGo (sideOrderCount e.bid_side.levels + o.quantity + 1) o
                  e.bid_side.levels e.order_lookup e.trade_events).levels
            · rw [if_pos hg]
              constructor
              · intro hc
                exact Option.noConfusion hc
              · rintro (⟨-, hsa⟩ | ⟨-, hsa⟩)
                · exact absurd hsa (sideAssoc_not hg.2)
                · obtain ⟨o', ho', hid', -⟩ := hsa
                  have ho2 : o' ∈ ordersOf (insertLevel e.ask_side.is_bid_side
                      (matchGo (sideOrderCount e.bid_side.levels + o.quantity + 1) o
                        e.bid_side.levels e.order_lookup e.trade_events).incoming
                      e.ask_side.levels) := ho'
                  rcases List.mem_cons.mp (hperm.mem_iff.mp ho2) with he | he
                  · exact (hio (by rw [← hid', he, f1])).elim
                  · exact absurd (mem_idsOf.mpr ⟨o', he, hid'⟩) (hdisj hg.1)
            · rw [if_neg hg]
              refine (hiff id p sd).trans (or_congr (and_congr_right fun _ =>
                (sideAssoc_trim hndb ht (fun hin =>
                  Decidable.by_contra fun hnin => hg ⟨hin, hnin⟩)).symm)
                (and_congr_right fun _ => ?_))
              constructor
              · rintro ⟨o', ho', hid', hp'⟩
                exact ⟨o', hperm.mem_iff.mpr (List.mem_cons_of_mem _ ho'), hid', hp'⟩
              · rintro ⟨o', ho', hid', hp'⟩
                have ho2 : o' ∈ ordersOf (insertLevel e.ask_side.is_bid_side
                    (matchGo (sideOrderCount e.bid_side.levels + o.quantity + 1) o
                      e.bid_side.levels e.order_lookup e.trade_events).incoming
                    e.ask_side.levels) := ho'
                rcases List.mem_cons.mp (hperm.mem_iff.mp ho2) with he | he
                · exact absurd (by rw [← hid', he, f1]) hio
                · exact ⟨o', he, hid', hp'⟩
      · rw [if_neg hq]
        show EngineInv4 (o.order_id :: used) { e with
          bid_side := { e.bid_side with levels :=
            (matchGo (sideOrderCount e.bid_side.levels + o.quantity + 1) o
              e.bid_side.levels e.order_lookup e.trade_events).levels },
          order_lookup := (matchGo (sideOrderCount e.bid_side.levels + o.quantity + 1) o
            e.bid_side.levels e.order_lookup e.trade_events).lookup,
          trade_events := (matchGo (sideOrderCount e.bid_side.levels + o.quantity + 1) o
            e.bid_side.levels e.order_lookup e.trade_events).trades }
        refine ⟨hbf, haf, sideWF_of_trim hwb ht hne', hwa, ?_, ?_, ?_⟩
        · exact hnd.sublist ((sideTrim_ids_sublist ht).append (List.Sublist.refl _))
        · intro i hi
          exact List.mem_cons_of_mem _ (hused i
            (((sideTrim_ids_sublist ht).append (List.Sublist.refl _)).mem hi))
        · intro id p sd
          show lookupFind (matchGo (sideOrderCount e.bid_side.levels + o.quantity + 1) o
            e.bid_side.levels e.order_lookup e.trade_events).lookup id = some (p, sd) ↔ _
          rw [hlk id]
          by_cases hg : id ∈ idsOf e.bid_side.levels ∧
              id ∉ idsOf (matchGo (sideOrderCount e.bid_side.levels + o.quantity + 1) o
                e.bid_side.levels e.order_lookup e.trade_events).levels
          · rw [if_pos hg]
            constructor
            · intro hc
              exact Option.noConfusion hc
            · rintro (⟨-, hsa⟩ | ⟨-, hsa⟩)
              · exact absurd hsa (sideAssoc_not hg.2)
              · have hsa' : SideAssoc e.ask_side.levels id p := hsa
                obtain ⟨a, ha, hida, -⟩ := hsa'
                exact absurd (mem_idsOf.mpr ⟨a, ha, hida⟩) (hdisj hg.1)
          · rw [if_neg hg]
            exact (hiff id p sd).trans (or_congr (and_congr_right fun _ =>
              (sideAssoc_trim hndb ht (fun hin =>
                Decidable.by_contra fun hnin => hg ⟨hin, hnin⟩)).symm) Iff.rfl)
theorem engineInv4_empty : EngineInv4 [] MatchingEngine.empty := by
  refine ⟨rfl, rfl,
    ⟨fun l hl => absurd hl (List.not_mem_nil l), List.Pairwise.nil,
      fun l hl => absurd hl (List.not_mem_nil l)⟩,
    ⟨fun l hl => absurd hl (List.not_mem_nil l), List.Pairwise.nil,
      fun l hl => absurd hl (List.not_mem_nil l)⟩,
    List.nodup_nil,
    fun i hi => absurd hi (List.not_mem_nil i),
    fun id p sd => ⟨fun hc => Option.noConfusion hc, ?_⟩⟩
  rintro (⟨-, a, ha, -⟩ | ⟨-, a, ha, -⟩) <;> exact absurd ha (List.not_mem_nil a)

theorem engineInv4_ops (ops : List EngineOp) :
    ∀ (used : List Nat) (e : MatchingEngine), EngineInv4 used e →
      (submittedIds ops).Nodup → (∀ i ∈ submittedIds ops, i ∉ used) →
      ∃ used', EngineInv4 used' (applyEngineOps e ops) := by
  induction ops with
  | nil =>
    intro used e h _ _
    exact ⟨used, h⟩
  | cons op ops ih =>
    intro used e h hnd hdisj
    cases op with
    | submit o =>
      exact ih (o.order_id :: used) (e.add_order o)
        (engineInv4_submit used e o h (hdisj o.order_id (List.mem_cons_self _ _)))
        (List.nodup_cons.mp hnd).2
        (fun i hi hc => by
          rcases List.mem_cons.mp hc with hc | hc
          · exact (List.nodup_cons.mp hnd).1 (hc ▸ hi)
          · exact hdisj i (List.mem_cons_of_mem _ hi) hc)
    | cancel id =>
      exact ih used _ (engineInv4_cancel used e id h) hnd hdisj

/-! ## The claims -/

/-- C1 (counterexample): the claim fails once engine submissions cause a
partial fill.  Submitting Sell Limit (id 1, price 10000, qty 5) into the
empty engine and then Buy Limit (id 2, price 10000, qty 3) partially fills
the resting order: the surviving ask level caches `total_quantity = 5`
while the sum of the remaining quantities of its orders is `2`. -/
theorem C1_counterexample :
    (((MatchingEngine.empty.add_order ⟨1, OrderSide.SELL, 10000, 5, OrderType.LIMIT⟩).add_order
        ⟨2, OrderSide.BUY, 10000, 3, OrderType.LIMIT⟩).ask_side.levels.map
      (fun l => (l.total_quantity, l.sumRemaining))) = [(5, 2)] ∧ (5 : Nat) ≠ 2 := by
  constructor
  · decide
  · decide

/-- C1 (amended): for every price level on either side of the book, after
any sequence of the book operations insert, pop-best and cancel starting
from an empty side, the level's cached `total_quantity` equals the sum of
the remaining quantities of the orders currently in that level.  (Engine
submissions that partially fill a resting order break the equality — the
cache then exceeds the sum by the filled amount — as `C1_counterexample`
shows.) -/
theorem C1_amended_book_ops_cache_consistent (is_bid : Bool) (ops : List BookOp)
    (l : OrderBookLevel) (hl : l ∈ (applyBookOps ⟨is_bid, []⟩ ops).levels) :
    l.total_quantity = l.sumRemaining := by
  suffices h : ∀ (ops : List BookOp) (s : OrderBookSide),
      (∀ l ∈ s.levels, LevelConsistent l) →
      ∀ l ∈ (applyBookOps s ops).levels, LevelConsistent l by
    exact h ops ⟨is_bid, []⟩ (by simp) l hl
  intro ops
  induction ops with
  | nil => intro s hs; simpa [applyBookOps] using hs
  | cons op ops ih =>
    intro s hs
    exact ih _ (applyBookOp_consistent hs op)

/-- Witness for `C1_amended_book_ops_cache_consistent` at a concrete
operation sequence. -/
theorem C1_amended_witness :
    (⟨10000, [⟨2, OrderSide.SELL, 10000, 7, OrderType.LIMIT⟩], 7⟩ :
      OrderBookLevel).total_quantity =
      (⟨10000, [⟨2, OrderSide.SELL, 10000, 7, OrderType.LIMIT⟩], 7⟩ :
        OrderBookLevel).sumRemaining :=
  C1_amended_book_ops_cache_consistent false
    [BookOp.insert ⟨1, OrderSide.SELL, 10000, 5, OrderType.LIMIT⟩,
     BookOp.insert ⟨2, OrderSide.SELL, 10000, 7, OrderType.LIMIT⟩,
     BookOp.insert ⟨3, OrderSide.SELL, 10020, 4, OrderType.LIMIT⟩,
     BookOp.popBest,
     BookOp.cancel 3 10020]
    ⟨10000, [⟨2, OrderSide.SELL, 10000, 7, OrderType.LIMIT⟩], 7⟩ (by decide)

/-- C8 (counterexample): the claim that `get_events_per_second` divides by
zero for sub-second windows is false on this source: at elapsed time
0.5 s (500000000 ns, truncating to 0 s) with 7 recorded events, the
`duration <= 0` guard returns 0.0 and no division is evaluated. -/
theorem C8_counterexample :
    eps_duration_s 500000000 = 0 ∧ eps_divides 500000000 = false ∧
      get_events_per_second 7 500000000 = 0 := by
  refine ⟨rfl, rfl, ?_⟩
  simp [get_events_per_second, eps_duration_s]

/-- C8 (amended): `get_events_per_second` does use second-granularity
elapsed time (its value only depends on the truncated whole seconds), but
for sub-second windows it returns 0.0 through the `duration <= 0` guard
instead of dividing; the division is evaluated only when the truncated
duration is at least one second, so it never divides by zero. -/
theorem C8_amended_second_granularity_no_div_by_zero (c e_ns : Nat) :
    get_events_per_second c e_ns = get_events_per_second c (1000000000 * eps_duration_s e_ns) ∧
      (eps_duration_s e_ns = 0 → eps_divides e_ns = false ∧ get_events_per_second c e_ns = 0) ∧
      (eps_divides e_ns = true → 1 ≤ eps_duration_s e_ns) := by
  refine ⟨?_, ?_, ?_⟩
  · unfold get_events_per_second eps_duration_s
    rw [Nat.mul_div_cancel_left _ (by norm_num)]
  · intro h
    unfold eps_divides get_events_per_second
    simp [h]
  · intro h
    unfold eps_divides at h
    simp at h
    omega

/-- Witness for `C8_amended_second_granularity_no_div_by_zero`. -/
theorem C8_amended_witness :
    eps_divides 999999999 = false ∧ get_events_per_second 12 999999999 = 0 :=
  (C8_amended_second_granularity_no_div_by_zero 12 999999999).2.1 rfl

/-- `riskStep` is exactly: reject (count and drop) iff the claim's
rejection condition holds, otherwise admit (append and accumulate the
daily volume when that cap is set). -/
theorem riskStep_characterize (rm : RiskManager) (out : List Order) (o : Order) :
    riskStep rm out o =
      if specRejects rm out o then
        ({ rm with orders_rejected := rm.orders_rejected + 1 }, out)
      else
        ({ rm with daily_volume :=
            if rm.config.max_daily_volume ≠ 0 then (rm.daily_volume + o.quantity) % u64Mod
            else rm.daily_volume }, out ++ [o]) := by
  unfold riskStep specRejects
  split_ifs <;> first | rfl | tauto

/-- Fold-level facts about `filter_orders` with a general accumulator:
the config is untouched, every candidate is either admitted or counted
rejected, admitted orders extend the accumulator by a subsequence of the
input, and the daily-volume cap is preserved. -/
theorem riskFold_aux :
    ∀ (orders : List Order) (rm : RiskManager) (out : List Order),
      (orders.foldl (fun acc o => riskStep acc.1 acc.2 o) (rm, out)).1.config = rm.config ∧
      (orders.foldl (fun acc o => riskStep acc.1 acc.2 o) (rm, out)).1.orders_rejected +
          (orders.foldl (fun acc o => riskStep acc.1 acc.2 o) (rm, out)).2.length =
        rm.orders_rejected + out.length + orders.length ∧
      (∃ t, (orders.foldl (fun acc o => riskStep acc.1 acc.2 o) (rm, out)).2 = out ++ t ∧
        t.Sublist orders) ∧
      (rm.config.max_daily_volume ≠ 0 → rm.daily_volume ≤ rm.config.max_daily_volume →
        (orders.foldl (fun acc o => riskStep acc.1 acc.2 o) (rm, out)).1.daily_volume ≤
          rm.config.max_daily_volume) := by
  intro orders
  induction orders with
  | nil => intro rm out; refine ⟨rfl, by simp, ⟨[], by simp⟩, fun _ h => h⟩
  | cons o orders ih =>
    intro rm out
    simp only [List.foldl_cons]
    rw [riskStep_characterize]
    by_cases hrej : specRejects rm out o
    · rw [if_pos hrej]
      obtain ⟨hc, hn, ⟨t, ht, hts⟩, hd⟩ :=
        ih { rm with orders_rejected := rm.orders_rejected + 1 } out
      exact ⟨hc, by simp at hn ⊢; omega, ⟨t, ht, hts.cons _⟩, hd⟩
    · rw [if_neg hrej]
      obtain ⟨hc, hn, ⟨t, ht, hts⟩, hd⟩ := ih { rm with daily_volume :=
        if rm.config.max_daily_volume ≠ 0 then (rm.daily_volume + o.quantity) % u64Mod
        else rm.daily_volume } (out ++ [o])
      refine ⟨hc, by simp at hn ⊢; omega, ⟨o :: t, by simpa using ht, hts.cons₂ _⟩, ?_⟩
      intro hcap hle
      refine le_trans (le_of_eq rfl) (hd hcap ?_)
      show (if rm.config.max_daily_volume ≠ 0 then (rm.daily_volume + o.quantity) % u64Mod
        else rm.daily_volume) ≤ rm.config.max_daily_volume
      rw [if_pos hcap]
      unfold specRejects at hrej
      push_neg at hrej
      exact hrej.2.2.2 hcap

/-- C5: `filter_orders` processes candidates in input order and discards a
candidate, incrementing the rejection counter by exactly one, iff (when
the respective cap is set) its quantity exceeds `max_order_quantity`, or
the 64-bit product price × quantity exceeds `max_notional_per_order`, or
the number already admitted is at least `max_orders_per_batch`, or
`daily_volume` plus its quantity (as a 64-bit sum) would exceed
`max_daily_volume`; each admitted order adds its quantity to
`daily_volume`, so `daily_volume` never exceeds the cap when set; and with
`max_notional_per_order = 1000000`, an order with price 10000 and
quantity 200 is rejected, increments the counter and does not reach the
output. -/
theorem C5_filter_orders_contract :
    (∀ rm out o, riskStep rm out o =
        if specRejects rm out o then
          ({ rm with orders_rejected := rm.orders_rejected + 1 }, out)
        else
          ({ rm with daily_volume :=
              if rm.config.max_daily_volume ≠ 0 then (rm.daily_volume + o.quantity) % u64Mod
              else rm.daily_volume }, out ++ [o])) ∧
    (∀ rm orders,
      (filter_orders rm orders).1.orders_rejected + (filter_orders rm orders).2.length =
        rm.orders_rejected + orders.length) ∧
    (∀ rm orders, ((filter_orders rm orders).2).Sublist orders) ∧
    (∀ rm orders, rm.config.max_daily_volume ≠ 0 →
      rm.daily_volume ≤ rm.config.max_daily_volume →
      (filter_orders rm orders).1.daily_volume ≤ rm.config.max_daily_volume) ∧
    filter_orders ⟨⟨0, 1000000, 0, 0⟩, 0, 0⟩ [⟨9, OrderSide.BUY, 10000, 200, OrderType.LIMIT⟩] =
      (⟨⟨0, 1000000, 0, 0⟩, 1, 0⟩, []) := by
  refine ⟨riskStep_characterize, ?_, ?_, ?_, by decide⟩
  · intro rm orders
    simpa using (riskFold_aux orders rm []).2.1
  · intro rm orders
    obtain ⟨t, ht, hts⟩ := (riskFold_aux orders rm []).2.2.1
    simpa [filter_orders, ht] using hts
  · intro rm orders h1 h2
    exact (riskFold_aux orders rm []).2.2.2 h1 h2

/-- Witness for `C5_filter_orders_contract`: the daily-volume-cap
conjunct applied at a concrete state where the cap rejects the order. -/
theorem C5_witness :
    (filter_orders ⟨⟨0, 0, 0, 100⟩, 0, 40⟩
      [⟨1, OrderSide.BUY, 10, 70, OrderType.LIMIT⟩]).1.daily_volume ≤ 100 :=
  C5_filter_orders_contract.2.2.2.1 ⟨⟨0, 0, 0, 100⟩, 0, 40⟩
    [⟨1, OrderSide.BUY, 10, 70, OrderType.LIMIT⟩] (by decide) (by decide)

/-- C6 (counterexample): the claim that the produced Order's price equals
`p` (the last price appended to the history) is false: in a concrete
stop-loss run the last appended price is `p = 9849` but the emitted
order's price is `984900` — the source multiplies the signal price by 100
(`static_cast<Price>(signal.price * 100)`). -/
theorem C6_counterexample :
    (StrategyEngine.generate_signals (fun _ => 0)
        ⟨⟨0.25, 25, 75, 5, 2, 14, 50, 1.5, 3⟩, [10000], [1], true, 10000⟩
        [⟨7, OrderSide.BUY, 9849, 1, OrderType.MARKET⟩] 42).2.1 =
      [⟨42, OrderSide.SELL, 984900, 50, OrderType.MARKET⟩] ∧
    (([⟨7, OrderSide.BUY, 9849, 1, OrderType.MARKET⟩] : List Order).foldl
        StrategyEngine.pushHistory
        ⟨⟨0.25, 25, 75, 5, 2, 14, 50, 1.5, 3⟩, [10000], [1], true, 10000⟩).price_history.getLastD
      0 = 9849 ∧
    (984900 : Nat) ≠ 9849 := by
  refine ⟨?_, by norm_num [StrategyEngine.pushHistory], by norm_num⟩
  norm_num [StrategyEngine.generate_signals, StrategyEngine.pushHistory,
    StrategyEngine.generate_momentum_signal, StrategyEngine.calculate_signal_confidence,
    StrategyEngine.generate_signal_reason, Indicators.momentum_score,
    Indicators.relative_strength_index, Indicators.macd, Indicators.simple_moving_average,
    Indicators.price_change_percent, List.getLastD]
  rfl

/-- C6 (amended): whenever the momentum strategy's `generate_signals`
decides Buy or Sell, the Order it returns carries the supplied fresh id,
Market type, price equal to `⌊100 · p⌋` where `p` is the last price
appended to the price history (the source converts the signal price to an
integer price by multiplying by 100 — not `p` itself), and quantity
`⌊position_size⌋`; on Buy, `in_position` becomes true with `entry_price`
set to `p`, and on Sell `in_position` becomes false. -/
theorem C6_amended_signal_order_fields (tanhQ : ℚ → ℚ) (st : StrategyState)
    (orders : List Order) (fresh_id : Nat) (o : Order)
    (ho : o ∈ (StrategyEngine.generate_signals tanhQ st orders fresh_id).2.1) :
    o.otype = OrderType.MARKET ∧ o.order_id = fresh_id ∧
    o.price =
      Nat.floor ((orders.foldl StrategyEngine.pushHistory st).price_history.getLastD 0 * 100) ∧
    o.quantity = Nat.floor st.config.position_size ∧
    (o.side = OrderSide.BUY →
      (StrategyEngine.generate_signals tanhQ st orders fresh_id).1.in_position = true ∧
      (StrategyEngine.generate_signals tanhQ st orders fresh_id).1.entry_price =
        (orders.foldl StrategyEngine.pushHistory st).price_history.getLastD 0) ∧
    (o.side = OrderSide.SELL →
      (StrategyEngine.generate_signals tanhQ st orders fresh_id).1.in_position = false) := by
  have hcfg := (foldl_pushHistory_preserves orders st).1
  have hprice := gm_price tanhQ (orders.foldl StrategyEngine.pushHistory st)
    ((orders.foldl StrategyEngine.pushHistory st).price_history.getLastD 0)
  have hqty := gm_quantity tanhQ (orders.foldl StrategyEngine.pushHistory st)
    ((orders.foldl StrategyEngine.pushHistory st).price_history.getLastD 0)
  by_cases hlen : (orders.foldl StrategyEngine.pushHistory st).price_history.length <
      (orders.foldl StrategyEngine.pushHistory st).config.long_period
  · unfold StrategyEngine.generate_signals at ho
    dsimp only at ho
    rw [if_pos hlen] at ho
    simp at ho
  · cases hstype : (StrategyEngine.generate_momentum_signal tanhQ
        (orders.foldl StrategyEngine.pushHistory st)
        ((orders.foldl StrategyEngine.pushHistory st).price_history.getLastD 0)).stype with
    | HOLD =>
      unfold StrategyEngine.generate_signals at ho
      dsimp only at ho
      rw [if_neg hlen, if_pos hstype] at ho
      simp at ho
    | BUY =>
      have hip := gm_buy_not_in_position hstype
      unfold StrategyEngine.generate_signals at ho ⊢
      dsimp only at ho ⊢
      rw [if_neg hlen] at ho ⊢
      simp only [hstype, hip, reduceCtorEq, if_false, and_true, if_true, and_self,
        List.mem_singleton] at ho
      subst ho
      simp only [hstype, hip, reduceCtorEq, if_false, and_true, if_true, and_self]
      exact ⟨trivial, trivial, by rw [hprice], by rw [hqty, hcfg],
        fun _ => ⟨trivial, hprice⟩, fun h => h⟩
    | SELL =>
      have hip := gm_sell_in_position hstype
      unfold StrategyEngine.generate_signals at ho ⊢
      dsimp only at ho ⊢
      rw [if_neg hlen] at ho ⊢
      simp only [hstype, hip, reduceCtorEq, if_false, and_true, if_true, and_self,
        false_and, and_false, List.mem_singleton] at ho
      subst ho
      simp only [hstype, hip, reduceCtorEq, if_false, and_true, if_true, and_self,
        false_and, and_false]
      exact ⟨trivial, trivial, by rw [hprice], by rw [hqty, hcfg], fun h => h,
        fun _ => trivial⟩

/-- Witness for `C6_amended_signal_order_fields` at the concrete stop-loss
run. -/
theorem C6_amended_witness :
    (⟨42, OrderSide.SELL, 984900, 50, OrderType.MARKET⟩ : Order).otype = OrderType.MARKET ∧
      (⟨42, OrderSide.SELL, 984900, 50, OrderType.MARKET⟩ : Order).order_id = 42 := by
  have h := C6_amended_signal_order_fields (fun _ => 0)
    ⟨⟨0.25, 25, 75, 5, 2, 14, 50, 1.5, 3⟩, [10000], [1], true, 10000⟩
    [⟨7, OrderSide.BUY, 9849, 1, OrderType.MARKET⟩] 42
    ⟨42, OrderSide.SELL, 984900, 50, OrderType.MARKET⟩
    (by
      norm_num [StrategyEngine.generate_signals, StrategyEngine.pushHistory,
        StrategyEngine.generate_momentum_signal, StrategyEngine.calculate_signal_confidence,
        StrategyEngine.generate_signal_reason, Indicators.momentum_score,
        Indicators.relative_strength_index, Indicators.macd,
        Indicators.simple_moving_average, Indicators.price_change_percent, List.getLastD]
      exact List.Mem.head _)
  exact ⟨h.1, h.2.1⟩

/-- C7: if the strategy is in position with sufficient history and the
current price `p` satisfies
`pnl_pct = (p - entry_price)/entry_price * 100 ≤ -stop_loss_pct`, then
`generate_signals` emits a Sell signal whose reason begins
"Stop Loss triggered", `in_position` becomes false, and the realised pnl%
it reports equals `pnl_pct`. -/
theorem C7_stop_loss_exit (tanhQ : ℚ → ℚ) (st : StrategyState) (orders : List Order)
    (fresh_id : Nat) (hpos : st.in_position = true)
    (hlen : st.config.long_period ≤
      (orders.foldl StrategyEngine.pushHistory st).price_history.length)
    (hstop : ((orders.foldl StrategyEngine.pushHistory st).price_history.getLastD 0 -
        st.entry_price) / st.entry_price * 100 ≤ -st.config.stop_loss_pct) :
    ∃ s, (StrategyEngine.generate_signals tanhQ st orders fresh_id).2.2.1 = some s ∧
      s.stype = SignalType.SELL ∧
      strHasPrefix "Stop Loss triggered" s.reason ∧
      (StrategyEngine.generate_signals tanhQ st orders fresh_id).1.in_position = false ∧
      (StrategyEngine.generate_signals tanhQ st orders fresh_id).2.2.2 =
        some (((orders.foldl StrategyEngine.pushHistory st).price_history.getLastD 0 -
          st.entry_price) / st.entry_price * 100) := by
  obtain ⟨hcfg, hpos1, hentry⟩ := foldl_pushHistory_preserves orders st
  have hsig : StrategyEngine.generate_momentum_signal tanhQ
      (orders.foldl StrategyEngine.pushHistory st)
      ((orders.foldl StrategyEngine.pushHistory st).price_history.getLastD 0) =
      { stype := SignalType.SELL
        price := (orders.foldl StrategyEngine.pushHistory st).price_history.getLastD 0
        quantity := st.config.position_size
        reason := "Stop Loss triggered (" ++
          toString (((orders.foldl StrategyEngine.pushHistory st).price_history.getLastD 0 -
            st.entry_price) / st.entry_price * 100) ++ "%)"
        confidence := StrategyEngine.calculate_signal_confidence tanhQ
          (orders.foldl StrategyEngine.pushHistory st) } := by
    unfold StrategyEngine.generate_momentum_signal
    dsimp only
    rw [if_pos ⟨by rw [hpos1, hpos], by rw [hentry, hcfg]; exact hstop⟩]
    rw [hentry, hcfg]
  unfold StrategyEngine.generate_signals
  dsimp only
  rw [if_neg (by rw [hcfg]; omega), hsig]
  simp only [reduceCtorEq, if_false, and_true, true_and, false_and, and_false, if_true,
    hpos1, hpos, and_self, ite_false, ite_true]
  refine ⟨_, rfl, rfl, ?_, by rw [hentry]⟩
  exact ⟨" (".data ++
    (toString (((orders.foldl StrategyEngine.pushHistory st).price_history.getLastD 0 -
      st.entry_price) / st.entry_price * 100)).data ++ "%)".data, by simp [String.data_append]⟩

/-- Witness for `C7_stop_loss_exit`: `stop_loss_pct = 1.5`,
`entry_price = 10000`, fed price 9849 (pnl −1.51 %). -/
theorem C7_witness :
    ∃ s, (StrategyEngine.generate_signals (fun _ => 0)
        ⟨⟨0.25, 25, 75, 5, 2, 14, 50, 1.5, 3⟩, [10000], [1], true, 10000⟩
        [⟨8, OrderSide.BUY, 9849, 1, OrderType.MARKET⟩] 43).2.2.1 = some s ∧
      s.stype = SignalType.SELL ∧
      strHasPrefix "Stop Loss triggered" s.reason ∧
      (StrategyEngine.generate_signals (fun _ => 0)
        ⟨⟨0.25, 25, 75, 5, 2, 14, 50, 1.5, 3⟩, [10000], [1], true, 10000⟩
        [⟨8, OrderSide.BUY, 9849, 1, OrderType.MARKET⟩] 43).1.in_position = false ∧
      (StrategyEngine.generate_signals (fun _ => 0)
        ⟨⟨0.25, 25, 75, 5, 2, 14, 50, 1.5, 3⟩, [10000], [1], true, 10000⟩
        [⟨8, OrderSide.BUY, 9849, 1, OrderType.MARKET⟩] 43).2.2.2 =
        some (((([⟨8, OrderSide.BUY, 9849, 1, OrderType.MARKET⟩] : List Order).foldl
          StrategyEngine.pushHistory
          ⟨⟨0.25, 25, 75, 5, 2, 14, 50, 1.5, 3⟩,
            [10000], [1], true, 10000⟩).price_history.getLastD 0 - 10000) / 10000 * 100) :=
  C7_stop_loss_exit (fun _ => 0)
    ⟨⟨0.25, 25, 75, 5, 2, 14, 50, 1.5, 3⟩, [10000], [1], true, 10000⟩
    [⟨8, OrderSide.BUY, 9849, 1, OrderType.MARKET⟩] 43 rfl
    (by norm_num [StrategyEngine.pushHistory])
    (by norm_num [StrategyEngine.pushHistory, List.getLastD])

/-- C2: for every incoming Limit order, the engine's processing refines
the spec's matching contract `specLimitMatch` over the priority-ordered
resting orders of the opposite side: it matches exactly while the front
resting order crosses, each step emitting a Trade at the resting order's
price for `min(incoming.remaining, resting.remaining)` (encoded in
`specLimitMatch`); and if any quantity remains afterwards, the incoming
order is rested on its own side and recorded in the order index at
`(price, side)`. -/
theorem C2_limit_matching_refines_spec (e : MatchingEngine) (o : Order)
    (hlim : o.otype = OrderType.LIMIT) :
    (o.side = OrderSide.BUY → (∀ l ∈ e.ask_side.levels, l.orders ≠ []) →
      ordersOf (e.add_order o).ask_side.levels =
        (specLimitMatch o (ordersOf e.ask_side.levels)).2.1 ∧
      (e.add_order o).trade_events =
        e.trade_events ++ (specLimitMatch o (ordersOf e.ask_side.levels)).2.2 ∧
      (0 < (specLimitMatch o (ordersOf e.ask_side.levels)).1.quantity →
        (e.add_order o).bid_side =
          e.bid_side.add_order (specLimitMatch o (ordersOf e.ask_side.levels)).1 ∧
        lookupFind (e.add_order o).order_lookup o.order_id =
          some (o.price, o.side)) ∧
      ((specLimitMatch o (ordersOf e.ask_side.levels)).1.quantity = 0 →
        (e.add_order o).bid_side = e.bid_side)) ∧
    (o.side = OrderSide.SELL → (∀ l ∈ e.bid_side.levels, l.orders ≠ []) →
      ordersOf (e.add_order o).bid_side.levels =
        (specLimitMatch o (ordersOf e.bid_side.levels)).2.1 ∧
      (e.add_order o).trade_events =
        e.trade_events ++ (specLimitMatch o (ordersOf e.bid_side.levels)).2.2 ∧
      (0 < (specLimitMatch o (ordersOf e.bid_side.levels)).1.quantity →
        (e.add_order o).ask_side =
          e.ask_side.add_order (specLimitMatch o (ordersOf e.bid_side.levels)).1 ∧
        lookupFind (e.add_order o).order_lookup o.order_id =
          some (o.price, o.side)) ∧
      ((specLimitMatch o (ordersOf e.bid_side.levels)).1.quantity = 0 →
        (e.add_order o).ask_side = e.ask_side)) := by
  unfold MatchingEngine.add_order
  rw [if_neg (by rw [hlim]; simp)]
  constructor
  · intro hside hne
    unfold process_limit_order
    rw [if_pos hside]
    unfold match_order_against_side
    obtain ⟨s1, s2, s3⟩ := matchGo_spec (sideOrderCount e.ask_side.levels + o.quantity + 1)
      o e.ask_side.levels e.order_lookup e.trade_events (by omega) hne
    obtain ⟨f1, f2, f3, f4⟩ :=
      matchGo_incoming_fields (sideOrderCount e.ask_side.levels + o.quantity + 1)
      o e.ask_side.levels e.order_lookup e.trade_events
    rw [← s1]
    by_cases hq : 0 < (matchGo (sideOrderCount e.ask_side.levels + o.quantity + 1)
        o e.ask_side.levels e.order_lookup e.trade_events).incoming.quantity
    · rw [if_pos hq]
      refine ⟨s2, s3, fun _ => ⟨rfl, ?_⟩, fun h0 => absurd h0 (by omega)⟩
      rw [← f1, ← f2, ← f3, lookupFind_insert_self]
    · rw [if_neg hq]
      exact ⟨s2, s3, fun hp => absurd hp hq, fun _ => rfl⟩
  · intro hside hne
    unfold process_limit_order
    rw [if_neg (by rw [hside]; simp)]
    unfold match_order_against_side
    obtain ⟨s1, s2, s3⟩ := matchGo_spec (sideOrderCount e.bid_side.levels + o.quantity + 1)
      o e.bid_side.levels e.order_lookup e.trade_events (by omega) hne
    obtain ⟨f1, f2, f3, f4⟩ :=
      matchGo_incoming_fields (sideOrderCount e.bid_side.levels + o.quantity + 1)
      o e.bid_side.levels e.order_lookup e.trade_events
    rw [← s1]
    by_cases hq : 0 < (matchGo (sideOrderCount e.bid_side.levels + o.quantity + 1)
        o e.bid_side.levels e.order_lookup e.trade_events).incoming.quantity
    · rw [if_pos hq]
      refine ⟨s2, s3, fun _ => ⟨rfl, ?_⟩, fun h0 => absurd h0 (by omega)⟩
      rw [← f1, ← f2, ← f3, lookupFind_insert_self]
    · rw [if_neg hq]
      exact ⟨s2, s3, fun hp => absurd hp hq, fun _ => rfl⟩

/-- Witness for `C2_limit_matching_refines_spec`: the price-improvement
scenario — resting Sell (id 1, 10000, 10), incoming Buy Limit
(id 2, 10050, 4). -/
theorem C2_witness :
    ((MatchingEngine.empty.add_order
      ⟨1, OrderSide.SELL, 10000, 10, OrderType.LIMIT⟩).add_order
      ⟨2, OrderSide.BUY, 10050, 4, OrderType.LIMIT⟩).trade_events =
    (MatchingEngine.empty.add_order
      ⟨1, OrderSide.SELL, 10000, 10, OrderType.LIMIT⟩).trade_events ++
    (specLimitMatch ⟨2, OrderSide.BUY, 10050, 4, OrderType.LIMIT⟩
      (ordersOf (MatchingEngine.empty.add_order
        ⟨1, OrderSide.SELL, 10000, 10, OrderType.LIMIT⟩).ask_side.levels)).2.2 :=
  ((C2_limit_matching_refines_spec
    (MatchingEngine.empty.add_order ⟨1, OrderSide.SELL, 10000, 10, OrderType.LIMIT⟩)
    ⟨2, OrderSide.BUY, 10050, 4, OrderType.LIMIT⟩ rfl).1 rfl (by decide)).2.1

/-- C3: a Market order is matched against the opposite side only and is
never rested: the submitting side's book is untouched, the order's id
never appears in the book or the order index, and in the concrete
walk-the-book scenario (resting Sells id 1: 10000×2, id 2: 10010×2,
id 3: 10020×5; Market Buy qty 6) exactly three trades at prices
10000, 10010, 10020 with quantities 2, 2, 2 are emitted and Sell id 3
remains with quantity 3. -/
theorem C3_market_order_never_rests :
    (∀ (e : MatchingEngine) (o : Order), o.otype = OrderType.MARKET →
      (o.side = OrderSide.BUY → (e.add_order o).bid_side = e.bid_side) ∧
      (o.side = OrderSide.SELL → (e.add_order o).ask_side = e.ask_side) ∧
      (o.order_id ∉ bookIds e → o.order_id ∉ bookIds (e.add_order o)) ∧
      (lookupFind e.order_lookup o.order_id = none →
        lookupFind (e.add_order o).order_lookup o.order_id = none)) ∧
    ((((MatchingEngine.empty.add_order ⟨1, OrderSide.SELL, 10000, 2, OrderType.LIMIT⟩).add_order
        ⟨2, OrderSide.SELL, 10010, 2, OrderType.LIMIT⟩).add_order
        ⟨3, OrderSide.SELL, 10020, 5, OrderType.LIMIT⟩).add_order
        ⟨4, OrderSide.BUY, 0, 6, OrderType.MARKET⟩).trade_events =
      [⟨4, 1, 10000, 2⟩, ⟨4, 2, 10010, 2⟩, ⟨4, 3, 10020, 2⟩] ∧
    ((((MatchingEngine.empty.add_order ⟨1, OrderSide.SELL, 10000, 2, OrderType.LIMIT⟩).add_order
        ⟨2, OrderSide.SELL, 10010, 2, OrderType.LIMIT⟩).add_order
        ⟨3, OrderSide.SELL, 10020, 5, OrderType.LIMIT⟩).add_order
        ⟨4, OrderSide.BUY, 0, 6, OrderType.MARKET⟩).ask_side.levels.map
      (fun l => (l.price, l.orders.map (fun a => (a.order_id, a.quantity)))) =
      [(10020, [(3, 3)])] ∧
    ((((MatchingEngine.empty.add_order ⟨1, OrderSide.SELL, 10000, 2, OrderType.LIMIT⟩).add_order
        ⟨2, OrderSide.SELL, 10010, 2, OrderType.LIMIT⟩).add_order
        ⟨3, OrderSide.SELL, 10020, 5, OrderType.LIMIT⟩).add_order
        ⟨4, OrderSide.BUY, 0, 6, OrderType.MARKET⟩).bid_side.levels = [] := by
  refine ⟨?_, by decide, by decide, by decide⟩
  intro e o hmkt
  unfold MatchingEngine.add_order
  rw [if_pos hmkt]
  unfold process_market_order
  by_cases hside : o.side = OrderSide.BUY
  · rw [if_pos hside]
    refine ⟨fun _ => rfl, fun hs => absurd hs (by rw [hside]; simp), ?_, ?_⟩
    · intro hni hmem
      unfold bookIds at hni hmem
      simp only [List.mem_append] at hni hmem
      push_neg at hni
      rcases hmem with hmem | hmem
      · exact hni.1 hmem
      · exact hni.2 ((matchGo_ids_sublist _ _ _ _ _).mem hmem)
    · intro hn
      exact matchGo_lookup_none _ _ _ _ _ _ hn
  · rw [if_neg hside]
    refine ⟨fun hs => absurd hs hside, fun _ => rfl, ?_, ?_⟩
    · intro hni hmem
      unfold bookIds at hni hmem
      simp only [List.mem_append] at hni hmem
      push_neg at hni
      rcases hmem with hmem | hmem
      · exact hni.1 ((matchGo_ids_sublist _ _ _ _ _).mem hmem)
      · exact hni.2 hmem
    · intro hn
      exact matchGo_lookup_none _ _ _ _ _ _ hn

/-- Witness for `C3_market_order_never_rests`: the general conjunct
applied at the concrete scenario's book and Market order. -/
theorem C3_witness :
    (((((MatchingEngine.empty.add_order
        ⟨1, OrderSide.SELL, 10000, 2, OrderType.LIMIT⟩).add_order
        ⟨2, OrderSide.SELL, 10010, 2, OrderType.LIMIT⟩).add_order
        ⟨3, OrderSide.SELL, 10020, 5, OrderType.LIMIT⟩).add_order
        ⟨4, OrderSide.BUY, 0, 6, OrderType.MARKET⟩).bid_side =
      (((MatchingEngine.empty.add_order
        ⟨1, OrderSide.SELL, 10000, 2, OrderType.LIMIT⟩).add_order
        ⟨2, OrderSide.SELL, 10010, 2, OrderType.LIMIT⟩).add_order
        ⟨3, OrderSide.SELL, 10020, 5, OrderType.LIMIT⟩).bid_side) :=
  (C3_market_order_never_rests.1
    (((MatchingEngine.empty.add_order ⟨1, OrderSide.SELL, 10000, 2, OrderType.LIMIT⟩).add_order
      ⟨2, OrderSide.SELL, 10010, 2, OrderType.LIMIT⟩).add_order
      ⟨3, OrderSide.SELL, 10020, 5, OrderType.LIMIT⟩)
    ⟨4, OrderSide.BUY, 0, 6, OrderType.MARKET⟩ rfl).1 rfl

/-- C10: `filter_orders` computes the notional check as the 64-bit
wrap-around product `price * quantity (mod 2^64)`: with the notional cap
set to 1000000, an order of price `2^32` and quantity `2^32` (exact
notional `2^64`, far above the cap; wrapped product 0, below the cap) is
admitted rather than rejected, and the rejection counter stays 0. -/
theorem C10_notional_wraparound :
    filter_orders ⟨⟨0, 1000000, 0, 0⟩, 0, 0⟩
        [⟨1, OrderSide.BUY, 2 ^ 32, 2 ^ 32, OrderType.LIMIT⟩] =
      (⟨⟨0, 1000000, 0, 0⟩, 0, 0⟩, [⟨1, OrderSide.BUY, 2 ^ 32, 2 ^ 32, OrderType.LIMIT⟩]) ∧
      2 ^ 32 * 2 ^ 32 % u64Mod ≤ 1000000 ∧ 1000000 < 2 ^ 32 * 2 ^ 32 := by
  refine ⟨?_, by norm_num [u64Mod], by norm_num⟩
  decide

/-- C9: after any sequence of `add_order` submissions starting from the
empty engine, whenever both sides of the book are non-empty the best bid
price is strictly below the best ask price — the book is never crossed
or locked. -/
theorem C9_book_never_crossed (orders : List Order)
    (hb : (orders.foldl MatchingEngine.add_order MatchingEngine.empty).bid_side.levels ≠ [])
    (ha : (orders.foldl MatchingEngine.add_order MatchingEngine.empty).ask_side.levels ≠ []) :
    (orders.foldl MatchingEngine.add_order MatchingEngine.empty).bid_side.get_best_price <
      (orders.foldl MatchingEngine.add_order MatchingEngine.empty).ask_side.get_best_price :=
  (engineInv9_foldl orders MatchingEngine.empty engineInv9_empty).2.2.2.2 hb ha

/-- Witness for C9: resting Buy 9900 and Sell 10100 leave both sides
non-empty with best bid 9900 < best ask 10100. -/
theorem C9_witness :
    (([⟨1, OrderSide.BUY, 9900, 5, OrderType.LIMIT⟩,
       ⟨2, OrderSide.SELL, 10100, 5, OrderType.LIMIT⟩] : List Order).foldl
        MatchingEngine.add_order MatchingEngine.empty).bid_side.get_best_price <
      (([⟨1, OrderSide.BUY, 9900, 5, OrderType.LIMIT⟩,
         ⟨2, OrderSide.SELL, 10100, 5, OrderType.LIMIT⟩] : List Order).foldl
        MatchingEngine.add_order MatchingEngine.empty).ask_side.get_best_price :=
  C9_book_never_crossed _ (by decide) (by decide)

/-- C4: after any sequence of engine operations (submit and cancel, with
duplicate-free submitted ids) starting from the empty book, no price level
on either side is empty, and the order index contains an id iff that order
currently rests in the book, mapped to exactly the `(price, side)` at
which it rests. -/
theorem C4_book_and_index_coherent (ops : List EngineOp)
    (hnd : (submittedIds ops).Nodup) :
    (∀ l ∈ (applyEngineOps MatchingEngine.empty ops).bid_side.levels, l.orders ≠ []) ∧
    (∀ l ∈ (applyEngineOps MatchingEngine.empty ops).ask_side.levels, l.orders ≠ []) ∧
    (∀ id p sd,
      lookupFind (applyEngineOps MatchingEngine.empty ops).order_lookup id =
        some (p, sd) ↔
        RestsAt (applyEngineOps MatchingEngine.empty ops) id p sd) := by
  obtain ⟨used', h⟩ := engineInv4_ops ops [] MatchingEngine.empty engineInv4_empty hnd
    (fun i _ => List.not_mem_nil i)
  exact ⟨h.2.2.1.1, h.2.2.2.1.1, h.2.2.2.2.2.2⟩

/-- Witness for C4: submit a resting Buy and a resting Sell, then cancel
the Buy; the invariants hold for the resulting book. -/
theorem C4_witness :
    (∀ l ∈ (applyEngineOps MatchingEngine.empty
        [EngineOp.submit ⟨1, OrderSide.BUY, 9900, 5, OrderType.LIMIT⟩,
         EngineOp.submit ⟨2, OrderSide.SELL, 10100, 7, OrderType.LIMIT⟩,
         EngineOp.cancel 1]).bid_side.levels, l.orders ≠ []) ∧
    (∀ l ∈ (applyEngineOps MatchingEngine.empty
        [EngineOp.submit ⟨1, OrderSide.BUY, 9900, 5, OrderType.LIMIT⟩,
         EngineOp.submit ⟨2, OrderSide.SELL, 10100, 7, OrderType.LIMIT⟩,
         EngineOp.cancel 1]).ask_side.levels, l.orders ≠ []) ∧
    (∀ id p sd,
      lookupFind (applyEngineOps MatchingEngine.empty
        [EngineOp.submit ⟨1, OrderSide.BUY, 9900, 5, OrderType.LIMIT⟩,
         EngineOp.submit ⟨2, OrderSide.SELL, 10100, 7, OrderType.LIMIT⟩,
         EngineOp.cancel 1]).order_lookup id = some (p, sd) ↔
        RestsAt (applyEngineOps MatchingEngine.empty
          [EngineOp.submit ⟨1, OrderSide.BUY, 9900, 5, OrderType.LIMIT⟩,
           EngineOp.submit ⟨2, OrderSide.SELL, 10100, 7, OrderType.LIMIT⟩,
           EngineOp.cancel 1]) id p sd) :=
  C4_book_and_index_coherent
    [EngineOp.submit ⟨1, OrderSide.BUY, 9900, 5, OrderType.LIMIT⟩,
     EngineOp.submit ⟨2, OrderSide.SELL, 10100, 7, OrderType.LIMIT⟩,
     EngineOp.cancel 1] (by decide)

end HFT
